import Mathlib

/-!
# Wireless signal database

A shallow embedding of `src/wierless_signal.cpp`: the record type `WirelessSignal`, the
fixed-capacity store `SignalDatabase`, and its operations `addSignal`, `sortByFrequency`,
`findSignalByFrequency`, `findSignalsInPowerRange`, `saveToFile` and `loadFromFile`.

Modelling conventions.

* A C++ `double` is a value of `Double`: either NaN or an extended rational (`⊥` is `-inf`,
  `⊤` is `+inf`).  Every finite double is a rational, so each statement proved for all
  `Double` values covers all C++ doubles.  The comparison operators `<`, `<=`, `>`, `>=`
  and `==` are Boolean functions that answer `false` as soon as one operand is NaN, as the
  C++ operators do.
* Arithmetic on doubles is rounded by the machine, which the model of `Double` does not
  describe; the multiplication and the division that `calculateSignalStrength` uses are a
  parameter `FloatArith`.
* The `int` members `currentSize` and `maxSize` are natural numbers: the constructor
  allocates `new WirelessSignal[maxSize]`, which fails for a negative size, and
  `currentSize` starts at zero and is only ever incremented below `maxSize`.
* The heap array `signals` is a list holding all `maxSize` slots; the occupied slots are
  the first `currentSize` of them.
* Methods that mutate the object return the new object next to their C++ return value.
* A text file is the list of its characters.  How numbers are printed by `<<` and read by
  `>>` is decided by the C++ stream library, not by the program, so these four functions are
  a parameter `StreamLib` of the saving and loading operations.  Extraction of a string is
  modelled in full: it skips white space and takes the characters up to the next white
  space.  A failed extraction puts the stream in a failed state, in which every later
  extraction does nothing.
* `SignalDatabase::loadFromFile` declares its local variable `count` without an initial
  value.  The value that the variable holds before `file >> count` is a parameter of the
  operation; it matters when the extraction stores nothing.
* Output on `cout` is left out, except that `findSignalsInPowerRange`, which only prints,
  returns the records it prints and whether it prints that none was found.
-/

/-! ## Doubles -/

/-- A C++ `double`, as far as its comparisons go: NaN, or an extended rational number. -/
inductive Double where
  | nan : Double
  | num (x : WithBot (WithTop ℚ)) : Double
deriving DecidableEq

namespace Double

/-- The finite double with rational value `q`. -/
def ofRat (q : ℚ) : Double := .num ((q : WithTop ℚ) : WithBot (WithTop ℚ))

/-- The decimal literal `m / 10 ^ e`, for instance `dec 1015 1` for `101.5`. -/
def dec (m : Int) (e : Nat) : Double := ofRat (mkRat m (10 ^ e))

/-- Whether the value is NaN. -/
def isNaN : Double → Bool
  | nan => true
  | num _ => false

/-- C++ `a < b`. -/
def lt : Double → Double → Bool
  | num a, num b => decide (a < b)
  | _, _ => false

/-- C++ `a <= b`. -/
def le : Double → Double → Bool
  | num a, num b => decide (a ≤ b)
  | _, _ => false

/-- C++ `a > b`. -/
def gt (a b : Double) : Bool := lt b a

/-- C++ `a >= b`. -/
def ge (a b : Double) : Bool := le b a

/-- C++ `a == b`. -/
def eq : Double → Double → Bool
  | num a, num b => decide (a = b)
  | _, _ => false

end Double

/-! ## Records -/

/-- The class `WirelessSignal`: three doubles and a label. -/
structure WirelessSignal where
  power : Double
  frequency : Double
  distance : Double
  deviceType : String
deriving DecidableEq

/-- The default constructor `WirelessSignal()`. -/
instance : Inhabited WirelessSignal :=
  ⟨{ power := Double.ofRat 0, frequency := Double.ofRat 0, distance := Double.ofRat 0,
     deviceType := "Unknown" }⟩

/-! ## The store -/

/-- The class `SignalDatabase`. -/
structure SignalDatabase where
  signals : List WirelessSignal
  currentSize : Nat
  maxSize : Nat
deriving DecidableEq

namespace SignalDatabase

/-- The constructor `SignalDatabase(int size)`: `size` default-constructed slots, none
occupied. -/
def new (size : Nat) : SignalDatabase :=
  { signals := List.replicate size default, currentSize := 0, maxSize := size }

/-- The class invariant of a store that was built by the constructor and changed only by its
methods: the array has `maxSize` slots and `currentSize` does not exceed it. -/
def WF (db : SignalDatabase) : Prop :=
  db.signals.length = db.maxSize ∧ db.currentSize ≤ db.maxSize

instance (db : SignalDatabase) : Decidable db.WF := by
  unfold WF; infer_instance

/-- The occupied slots `signals[0] .. signals[currentSize - 1]`, in storage order. -/
def occupied (db : SignalDatabase) : List WirelessSignal :=
  db.signals.take db.currentSize

/-- The method `addSignal`: the new store and the returned flag. -/
def addSignal (db : SignalDatabase) (newSignal : WirelessSignal) : SignalDatabase × Bool :=
  if db.currentSize < db.maxSize then
    ({ db with signals := db.signals.set db.currentSize newSignal,
               currentSize := db.currentSize + 1 }, true)
  else
    (db, false)

/-- Calling `addSignal` once for each record of a list, in order: the final store and the
flags the calls returned. -/
def addSignals (db : SignalDatabase) : List WirelessSignal → SignalDatabase × List Bool
  | [] => (db, [])
  | r :: rs =>
    let step := db.addSignal r
    let rest := addSignals step.1 rs
    (rest.1, step.2 :: rest.2)

end SignalDatabase

/-! ## Sorting and searching -/

namespace SignalDatabase

/-- The body of the inner loop of `sortByFrequency` at index `j`: slots `j` and `j + 1` are
exchanged when the frequency on the left is greater than the one on the right. -/
def swapIfGreater (signals : List WirelessSignal) (j : Nat) : List WirelessSignal :=
  if Double.gt (signals.getD j default).frequency (signals.getD (j + 1) default).frequency then
    let temp := signals.getD j default
    (signals.set j (signals.getD (j + 1) default)).set (j + 1) temp
  else
    signals

/-- The inner loop of `sortByFrequency` for the outer index `i`:
`for (j = 0; j < currentSize - i - 1; j++)`. -/
def sortPass (currentSize : Nat) (signals : List WirelessSignal) (i : Nat) :
    List WirelessSignal :=
  (List.range (currentSize - i - 1)).foldl swapIfGreater signals

/-- The method `sortByFrequency`, whose outer loop is
`for (i = 0; i < currentSize - 1; i++)`. -/
def sortByFrequency (db : SignalDatabase) : SignalDatabase :=
  { db with signals :=
      (List.range (db.currentSize - 1)).foldl (sortPass db.currentSize) db.signals }

/-- The `while (left <= right)` loop of `findSignalByFrequency`.  The first argument bounds
the number of times the loop condition is evaluated; `none` means the bound was reached. -/
def findLoop (signals : List WirelessSignal) (targetFreq : Double) :
    Nat → Int → Int → Option Int
  | 0, _, _ => none
  | fuel + 1, left, right =>
    if left ≤ right then
      let mid := left + (right - left) / 2
      if Double.eq (signals.getD mid.toNat default).frequency targetFreq then
        some mid
      else if Double.lt (signals.getD mid.toNat default).frequency targetFreq then
        findLoop signals targetFreq fuel (mid + 1) right
      else
        findLoop signals targetFreq fuel left (mid - 1)
    else
      some (-1)

/-- The method `findSignalByFrequency`.  The loop condition is evaluated at most
`currentSize + 1` times, so that bound is passed to the loop. -/
def findSignalByFrequency (db : SignalDatabase) (targetFreq : Double) : Option Int :=
  findLoop db.signals targetFreq (db.currentSize + 1) 0 ((db.currentSize : Int) - 1)

/-- The method `findSignalsInPowerRange`: the records it displays, in the order in which it
displays them, and whether it prints the line "No signals found in that power range." -/
def findSignalsInPowerRange (db : SignalDatabase) (minPower maxPower : Double) :
    List WirelessSignal × Bool :=
  let out := (List.range db.currentSize).foldl
    (fun (acc : List WirelessSignal × Bool) i =>
      let power := (db.signals.getD i default).power
      if Double.ge power minPower && Double.le power maxPower then
        (acc.1 ++ [db.signals.getD i default], true)
      else
        acc)
    ([], false)
  (out.1, !out.2)

end SignalDatabase

/-- Frequencies that are non-decreasing across a list of records: for all indices
`i < j` below the length, the frequency at `i` is `<=` the frequency at `j`. -/
def SortedByFrequency (l : List WirelessSignal) : Prop :=
  ∀ j < l.length, ∀ i < j,
    Double.le (l.getD i default).frequency (l.getD j default).frequency = true

instance (l : List WirelessSignal) : Decidable (SortedByFrequency l) := by
  unfold SortedByFrequency; infer_instance

/-- Frequencies that are strictly ascending across a list of records: for all indices
`i < j` below the length, the frequency at `i` is `<` the frequency at `j`. -/
def StrictlyAscending (l : List WirelessSignal) : Prop :=
  ∀ j < l.length, ∀ i < j,
    Double.lt (l.getD i default).frequency (l.getD j default).frequency = true

instance (l : List WirelessSignal) : Decidable (StrictlyAscending l) := by
  unfold StrictlyAscending; infer_instance

/-- No record of the list has a NaN frequency. -/
def NoNaNFrequency (l : List WirelessSignal) : Prop :=
  ∀ r ∈ l, r.frequency.isNaN = false

instance (l : List WirelessSignal) : Decidable (NoNaNFrequency l) := by
  unfold NoNaNFrequency; infer_instance

/-! ## Text streams -/

/-- The C `isspace` classification that formatted extraction uses to skip and to delimit. -/
def isspace (c : Char) : Bool :=
  c = ' ' || c = '\t' || c = '\n' || c = '\x0b' || c = '\x0c' || c = '\r'

/-- The number formatting and parsing of the C++ stream library, which the program calls
and does not define.  `showInt` and `showDouble` are the characters that `<<` writes;
`readInt` and `readDouble` are `>>` on the unread characters of a stream in good state:
the value stored in the variable, and the characters left unread, or `none` when the
extraction fails.  For an `int` the value is `none` when the extraction stores nothing, so
that the variable keeps the value it had: the C++ library does so when only white space is
left in the input.  The program extracts a `double` only into a member of a record that the
default constructor has just set to zero, where storing nothing and storing zero agree. -/
structure StreamLib where
  showInt : Int → List Char
  showDouble : Double → List Char
  readInt : List Char → Option Int × Option (List Char)
  readDouble : List Char → Double × Option (List Char)

/-- An opened `ifstream`: the characters not yet read and whether the stream is still in
good state. -/
structure IFStream where
  unread : List Char
  good : Bool
deriving DecidableEq

namespace IFStream

/-- The extraction `file >> s` for a string: nothing happens on a failed stream; otherwise
leading white space is skipped and the run of characters up to the next white space
replaces the string.  At the end of the input the string is kept and the stream fails. -/
def extractString (file : IFStream) (s : String) : String × IFStream :=
  if file.good then
    let body := file.unread.dropWhile isspace
    if body = [] then
      (s, { unread := [], good := false })
    else
      (String.mk (body.takeWhile (fun c => !isspace c)),
       { unread := body.dropWhile (fun c => !isspace c), good := true })
  else
    (s, file)

/-- The extraction `file >> x` for a `double`: nothing happens on a failed stream. -/
def extractDouble (lib : StreamLib) (file : IFStream) (x : Double) : Double × IFStream :=
  if file.good then
    match lib.readDouble file.unread with
    | (v, some rest) => (v, { unread := rest, good := true })
    | (v, none) => (v, { unread := file.unread, good := false })
  else
    (x, file)

/-- The extraction `file >> n` for an `int`: nothing happens on a failed stream, and the
variable keeps its value `n` when the library stores nothing. -/
def extractInt (lib : StreamLib) (file : IFStream) (n : Int) : Int × IFStream :=
  if file.good then
    match lib.readInt file.unread with
    | (v, some rest) => (v.getD n, { unread := rest, good := true })
    | (v, none) => (v.getD n, { unread := file.unread, good := false })
  else
    (n, file)

end IFStream

namespace WirelessSignal

/-- The method `WirelessSignal::saveToFile`: the characters of the output file after the
record line is appended. -/
def saveToFile (lib : StreamLib) (r : WirelessSignal) (file : List Char) : List Char :=
  file ++ r.deviceType.data ++ [' '] ++ lib.showDouble r.power ++ [' ']
    ++ lib.showDouble r.frequency ++ [' '] ++ lib.showDouble r.distance ++ ['\n']

/-- The method `WirelessSignal::loadFromFile`:
`file >> deviceType >> power >> frequency >> distance`. -/
def loadFromFile (lib : StreamLib) (r : WirelessSignal) (file : IFStream) :
    WirelessSignal × IFStream :=
  let s1 := file.extractString r.deviceType
  let s2 := s1.2.extractDouble lib r.power
  let s3 := s2.2.extractDouble lib r.frequency
  let s4 := s3.2.extractDouble lib r.distance
  ({ power := s2.1, frequency := s3.1, distance := s4.1, deviceType := s1.1 }, s4.2)

end WirelessSignal

namespace SignalDatabase

/-- The method `SignalDatabase::saveToFile`.  The flag tells whether the file could be
opened; the result is the store afterwards and the characters written, if any. -/
def saveToFile (lib : StreamLib) (db : SignalDatabase) (isOpen : Bool) :
    SignalDatabase × Option (List Char) :=
  if isOpen then
    (db, some ((List.range db.currentSize).foldl
      (fun file i => (db.signals.getD i default).saveToFile lib file)
      (lib.showInt db.currentSize ++ ['\n'])))
  else
    (db, none)

/-- The loop of `SignalDatabase::loadFromFile` with the given number of iterations left:
each one reads a default-constructed record from the stream and adds it to the store. -/
def loadLoop (lib : StreamLib) : Nat → SignalDatabase × IFStream → SignalDatabase × IFStream
  | 0, state => state
  | n + 1, state =>
    let tempSignal := (default : WirelessSignal).loadFromFile lib state.2
    loadLoop lib n ((state.1.addSignal tempSignal.1).1, tempSignal.2)

/-- The method `SignalDatabase::loadFromFile`.  The file is `none` when it cannot be opened
and its characters otherwise.  The local variable `count` is declared without an
initial value: `uninitialized` is whatever it holds before `file >> count`, and it is what
the loop is bounded by when the extraction stores nothing.  The loop
`for (i = 0; i < count && i < maxSize; i++)` runs `min count maxSize` times, none when
`count` is not positive, because its body changes neither `count` nor `maxSize`. -/
def loadFromFile (lib : StreamLib) (db : SignalDatabase) (file : Option (List Char))
    (uninitialized : Int) : SignalDatabase :=
  match file with
  | some text =>
    let count := IFStream.extractInt lib { unread := text, good := true } uninitialized
    (loadLoop lib (min count.1.toNat db.maxSize) ({ db with currentSize := 0 }, count.2)).1
  | none => db

end SignalDatabase

/-! ## The data of the demonstration in `main` -/

/-- The three records of `main` as they stand when the database is saved: the WiFi power
has been changed to `0.2` and the Bluetooth distance to `3.0`. -/
def demoSignals : List WirelessSignal :=
  [ { power := Double.dec 2 1, frequency := Double.ofRat 2400, distance := Double.ofRat 10,
      deviceType := "WiFi" },
    { power := Double.dec 1 3, frequency := Double.ofRat 2450, distance := Double.ofRat 3,
      deviceType := "Bluetooth" },
    { power := Double.ofRat 50, frequency := Double.dec 1015 1, distance := Double.ofRat 1000,
      deviceType := "Radio" } ]

/-- The database of `main`: capacity ten, holding the three records. -/
def demoDatabase : SignalDatabase :=
  ((SignalDatabase.new 10).addSignals demoSignals).1

/-! ## What a round trip through a text file needs -/

/-- A label that `>>` reads back whole: it is not empty and has no white space in it. -/
def LabelIsToken (s : String) : Prop :=
  s.data ≠ [] ∧ ∀ c ∈ s.data, isspace c = false

instance (s : String) : Decidable (LabelIsToken s) := by
  unfold LabelIsToken; infer_instance

namespace StreamLib

/-- The count `n`, printed at the start of a line and followed by the end of the line, is
read back as `n`, and the end of the line is left unread. -/
def IntSurvives (lib : StreamLib) (n : Int) : Prop :=
  ∀ rest : List Char,
    lib.readInt (lib.showInt n ++ '\n' :: rest) = (some n, some ('\n' :: rest))

/-- The number `d`, printed after a space and followed by a space or the end of the line,
is read back as `d`, and what follows it is left unread. -/
def DoubleSurvives (lib : StreamLib) (d : Double) : Prop :=
  ∀ (sep : Char) (rest : List Char), sep = ' ' ∨ sep = '\n' →
    lib.readDouble (' ' :: (lib.showDouble d ++ sep :: rest)) = (d, some (sep :: rest))

/-- The label and the three numbers of a record survive printing and reading. -/
def RecordSurvives (lib : StreamLib) (r : WirelessSignal) : Prop :=
  LabelIsToken r.deviceType ∧ lib.DoubleSurvives r.power ∧ lib.DoubleSurvives r.frequency ∧
    lib.DoubleSurvives r.distance

end StreamLib

namespace IFStream

/-- The stream holds the given records one after another: reading each of them with
`WirelessSignal::loadFromFile` into a default-constructed record succeeds, that is leaves
the stream in good state, and yields that record. -/
def holdsRecords (lib : StreamLib) : IFStream → List WirelessSignal → Bool
  | _, [] => true
  | file, r :: rs =>
    let read := (default : WirelessSignal).loadFromFile lib file
    file.good && read.2.good && decide (read.1 = r) && holdsRecords lib read.2 rs

end IFStream

/-- The text starts with the count `n` and goes on with `n` well-formed records, which
are `records`: reading the count succeeds and yields `n`, and the stream that is left
holds the records. -/
def WellFormedText (lib : StreamLib) (text : List Char) (n : Nat)
    (records : List WirelessSignal) : Prop :=
  records.length = n ∧ (lib.readInt text).1 = some (n : Int) ∧
    (match (lib.readInt text).2 with
      | some rest => IFStream.holdsRecords lib { unread := rest, good := true } records
      | none => false) = true

instance (lib : StreamLib) (text : List Char) (n : Nat) (records : List WirelessSignal) :
    Decidable (WellFormedText lib text n records) := by
  unfold WellFormedText; infer_instance

/-! ## A stream library for whole numbers -/

/-- Reading a natural number in decimal: white space is skipped, then the digits are taken;
without a digit the extraction fails and stores zero. -/
def readDecimal (text : List Char) : Nat × Option (List Char) :=
  let body := text.dropWhile isspace
  let digits := body.takeWhile Char.isDigit
  if digits = [] then
    (0, none)
  else
    (digits.foldl (fun value c => 10 * value + (c.toNat - 48)) 0,
     some (body.dropWhile Char.isDigit))

/-- The natural number that a double is, if it is one. -/
def Double.toNat? : Double → Option Nat
  | .num (some (some q)) => if q.den = 1 ∧ 0 ≤ q.num then some q.num.toNat else none
  | _ => none

/-- An instance of the stream library that prints and reads natural numbers in decimal, as
the C++ library does; every other number it prints as a question mark, which it does not
read back.  Like the C++ library it stores nothing in an `int` when only white space is
left in the input, and stores zero when what it finds is not a number. -/
def decimalLib : StreamLib where
  showInt n := if 0 ≤ n then Nat.toDigits 10 n.toNat else ['?']
  showDouble d :=
    match d.toNat? with
    | some n => Nat.toDigits 10 n
    | none => ['?']
  readInt text :=
    (if text.dropWhile isspace = [] then none else some ((readDecimal text).1 : Int),
     (readDecimal text).2)
  readDouble text := (Double.ofRat (readDecimal text).1, (readDecimal text).2)

/-- Five records with whole-number fields. -/
def fiveSignals : List WirelessSignal :=
  [ { power := Double.ofRat 1, frequency := Double.ofRat 2400, distance := Double.ofRat 10,
      deviceType := "WiFi" },
    { power := Double.ofRat 2, frequency := Double.ofRat 2450, distance := Double.ofRat 3,
      deviceType := "Bluetooth" },
    { power := Double.ofRat 50, frequency := Double.ofRat 101, distance := Double.ofRat 1000,
      deviceType := "Radio" },
    { power := Double.ofRat 4, frequency := Double.ofRat 900, distance := Double.ofRat 250,
      deviceType := "GSM" },
    { power := Double.ofRat 7, frequency := Double.ofRat 433, distance := Double.ofRat 40,
      deviceType := "LoRa" } ]

/-- A store of capacity five that holds the five records. -/
def fiveDatabase : SignalDatabase :=
  ((SignalDatabase.new 5).addSignals fiveSignals).1

/-! ## Stores on which a claim is tested -/

/-- A store of two records of which the first has a NaN frequency. -/
def nanDatabase : SignalDatabase :=
  ((SignalDatabase.new 2).addSignals
    [ { power := Double.ofRat 1, frequency := Double.nan, distance := Double.ofRat 1,
        deviceType := "A" },
      { power := Double.ofRat 1, frequency := Double.ofRat 1, distance := Double.ofRat 1,
        deviceType := "B" } ]).1

/-- A store of one record, whose frequency is NaN. -/
def singleNaNDatabase : SignalDatabase :=
  ((SignalDatabase.new 1).addSignals
    [ { power := Double.ofRat 1, frequency := Double.nan, distance := Double.ofRat 1,
        deviceType := "A" } ]).1

/-- A store of one record, whose label has a space in it. -/
def spacedDatabase : SignalDatabase :=
  ((SignalDatabase.new 1).addSignals
    [ { power := Double.ofRat 1, frequency := Double.ofRat 2, distance := Double.ofRat 3,
        deviceType := "My WiFi" } ]).1

/-! ## The text of a saved database -/

/-- The line of text of a record: label, power, frequency and distance with single spaces
between them, and the end of the line. -/
def recordLine (lib : StreamLib) (r : WirelessSignal) : List Char :=
  r.deviceType.data ++ ' ' :: (lib.showDouble r.power ++ ' ' :: (lib.showDouble r.frequency
    ++ ' ' :: (lib.showDouble r.distance ++ ['\n'])))

/-- The text of a database: the count on a line of its own, then the lines of the records
in the given order. -/
def databaseText (lib : StreamLib) (records : List WirelessSignal) : List Char :=
  lib.showInt records.length ++ '\n' :: (records.map (recordLine lib)).flatten

/-! ## Signal strength -/

/-- The multiplication and the division of doubles that the machine provides.  They are a
parameter because the model of `Double` fixes the comparisons only, not the rounding of
arithmetic. -/
structure FloatArith where
  mul : Double → Double → Double
  div : Double → Double → Double

/-- The method `calculateSignalStrength`. -/
def WirelessSignal.calculateSignalStrength (arith : FloatArith) (r : WirelessSignal) : Double :=
  if Double.eq r.distance (Double.ofRat 0) then
    r.power
  else
    arith.div r.power (arith.mul r.distance r.distance)

/-- The quotient of two integers as a double, NaN when the denominator is zero. -/
def Double.ofQuotient (n d : Int) : Double :=
  if d = 0 then Double.nan
  else if 0 < d then Double.ofRat (mkRat n d.toNat)
  else Double.ofRat (mkRat (-n) (-d).toNat)

/-- Arithmetic without rounding on finite values, for the cases in which the machine result
is exact; every other case yields NaN. -/
def exactArith : FloatArith where
  mul a b :=
    match a, b with
    | .num (some (some x)), .num (some (some y)) =>
      Double.ofQuotient (x.num * y.num) ((x.den : Int) * (y.den : Int))
    | _, _ => Double.nan
  div a b :=
    match a, b with
    | .num (some (some x)), .num (some (some y)) =>
      Double.ofQuotient (x.num * (y.den : Int)) ((x.den : Int) * y.num)
    | _, _ => Double.nan

/-! ## Sequences of operations on a store -/

/-- A call of one of the methods that change a store. -/
inductive StoreOp where
  | addSignal (newSignal : WirelessSignal) : StoreOp
  | sortByFrequency : StoreOp
  | loadFromFile (file : Option (List Char)) (uninitialized : Int) : StoreOp

namespace SignalDatabase

/-- The store after one call. -/
def applyOp (lib : StreamLib) (db : SignalDatabase) : StoreOp → SignalDatabase
  | .addSignal newSignal => (db.addSignal newSignal).1
  | .sortByFrequency => db.sortByFrequency
  | .loadFromFile file uninitialized => db.loadFromFile lib file uninitialized

/-- The store after a sequence of calls, made from left to right. -/
def applyOps (lib : StreamLib) (db : SignalDatabase) (ops : List StoreOp) : SignalDatabase :=
  ops.foldl (applyOp lib) db

/-! ## The binary search, step by step -/

/-- The iterations of the loop of `findSignalByFrequency`: for each one the values of
`left` and `right` at its start and the index `mid` of the slot it reads.  It follows
`findLoop` branch for branch. -/
def findTrace (signals : List WirelessSignal) (targetFreq : Double) :
    Nat → Int → Int → List (Int × Int × Int)
  | 0, _, _ => []
  | fuel + 1, left, right =>
    if left ≤ right then
      let mid := left + (right - left) / 2
      (left, right, mid) ::
        (if Double.eq (signals.getD mid.toNat default).frequency targetFreq then
          []
        else if Double.lt (signals.getD mid.toNat default).frequency targetFreq then
          findTrace signals targetFreq fuel (mid + 1) right
        else
          findTrace signals targetFreq fuel left (mid - 1))
    else
      []

/-- The iterations of a call of `findSignalByFrequency`. -/
def findSignalByFrequencyTrace (db : SignalDatabase) (targetFreq : Double) :
    List (Int × Int × Int) :=
  findTrace db.signals targetFreq (db.currentSize + 1) 0 ((db.currentSize : Int) - 1)

/-- A call of `findSignalByFrequency` with the store it leaves behind: the method assigns
to its local variables `left`, `right` and `mid` only, so that store is the one it was
called on. -/
def findSignalByFrequencyCall (db : SignalDatabase) (targetFreq : Double) :
    SignalDatabase × Option Int :=
  (db, db.findSignalByFrequency targetFreq)

end SignalDatabase

/-! ## More stores on which a claim is tested -/

/-- A store of three records that all have the frequency `5`. -/
def fivesDatabase : SignalDatabase :=
  ((SignalDatabase.new 3).addSignals
    [ { power := Double.ofRat 1, frequency := Double.ofRat 5, distance := Double.ofRat 1,
        deviceType := "A" },
      { power := Double.ofRat 2, frequency := Double.ofRat 5, distance := Double.ofRat 1,
        deviceType := "B" },
      { power := Double.ofRat 3, frequency := Double.ofRat 5, distance := Double.ofRat 1,
        deviceType := "C" } ]).1

/-- A store of three records with the frequencies `3, 1, 2`, which are not in order. -/
def unsortedDatabase : SignalDatabase :=
  ((SignalDatabase.new 3).addSignals
    [ { power := Double.ofRat 1, frequency := Double.ofRat 3, distance := Double.ofRat 1,
        deviceType := "A" },
      { power := Double.ofRat 2, frequency := Double.ofRat 1, distance := Double.ofRat 1,
        deviceType := "B" },
      { power := Double.ofRat 3, frequency := Double.ofRat 2, distance := Double.ofRat 1,
        deviceType := "C" } ]).1

/-- A store of four records with the frequencies `5, 3, 5, 1`: two of them are equal and
the store is not in order. -/
def duplicatesDatabase : SignalDatabase :=
  ((SignalDatabase.new 6).addSignals
    [ { power := Double.ofRat 1, frequency := Double.ofRat 5, distance := Double.ofRat 1,
        deviceType := "A" },
      { power := Double.ofRat 2, frequency := Double.ofRat 3, distance := Double.ofRat 1,
        deviceType := "B" },
      { power := Double.ofRat 3, frequency := Double.ofRat 5, distance := Double.ofRat 1,
        deviceType := "C" },
      { power := Double.ofRat 4, frequency := Double.ofRat 1, distance := Double.ofRat 1,
        deviceType := "D" } ]).1

/-! ## Insertion -/

namespace SignalDatabase

theorem new_WF (size : Nat) : (new size).WF := by
  simp [new, WF]

theorem addSignal_WF (db : SignalDatabase) (r : WirelessSignal) (h : db.WF) :
    (db.addSignal r).1.WF := by
  unfold addSignal
  split
  · obtain ⟨h1, h2⟩ := h
    refine ⟨?_, ?_⟩
    · simpa using h1
    · simp only; omega
  · exact h

theorem addSignal_maxSize (db : SignalDatabase) (r : WirelessSignal) :
    (db.addSignal r).1.maxSize = db.maxSize := by
  unfold addSignal
  split <;> rfl

theorem occupied_length (db : SignalDatabase) (h : db.WF) :
    db.occupied.length = db.currentSize := by
  obtain ⟨h1, h2⟩ := h
  simp [occupied]; omega

theorem addSignal_occupied_of_lt (db : SignalDatabase) (r : WirelessSignal) (h : db.WF)
    (hlt : db.currentSize < db.maxSize) :
    (db.addSignal r).1.occupied = db.occupied ++ [r] := by
  obtain ⟨h1, h2⟩ := h
  have hlen : db.currentSize < db.signals.length := by omega
  simp only [addSignal, if_pos hlt, occupied]
  rw [List.take_succ, List.set_take, List.set_eq_of_length_le (by simp)]
  simp [hlen]

end SignalDatabase

theorem SignalDatabase.addSignals_flags (l : List WirelessSignal) :
    ∀ db : SignalDatabase, (db.addSignals l).2.length = l.length := by
  induction l with
  | nil => intro db; rfl
  | cons a l ih => intro db; simp [SignalDatabase.addSignals, ih]

theorem SignalDatabase.addSignals_spec (rs : List WirelessSignal) :
    ∀ db : SignalDatabase, db.WF →
      (db.addSignals rs).1.currentSize = db.currentSize + (db.addSignals rs).2.count true ∧
      (db.addSignals rs).2.count true = min rs.length (db.maxSize - db.currentSize) ∧
      (db.addSignals rs).1.occupied
        = db.occupied ++ rs.take (min rs.length (db.maxSize - db.currentSize)) ∧
      (db.addSignals rs).1.maxSize = db.maxSize := by
  induction rs with
  | nil => intro db _; simp [SignalDatabase.addSignals]
  | cons r rs ih =>
    intro db hwf
    have ih1 := ih (db.addSignal r).1 (SignalDatabase.addSignal_WF db r hwf)
    simp only [SignalDatabase.addSignals]
    by_cases hlt : db.currentSize < db.maxSize
    · have hocc := SignalDatabase.addSignal_occupied_of_lt db r hwf hlt
      rw [hocc] at ih1
      have e1 : (db.addSignal r).1.currentSize = db.currentSize + 1 := by
        simp [SignalDatabase.addSignal, hlt]
      have e2 : (db.addSignal r).2 = true := by simp [SignalDatabase.addSignal, hlt]
      have e3 : (db.addSignal r).1.maxSize = db.maxSize := SignalDatabase.addSignal_maxSize db r
      rw [e1, e3] at ih1
      obtain ⟨i1, i2, i3, i4⟩ := ih1
      have hm : min (rs.length + 1) (db.maxSize - db.currentSize)
          = min rs.length (db.maxSize - (db.currentSize + 1)) + 1 := by omega
      refine ⟨?_, ?_, ?_, i4⟩
      · rw [i1, e2, List.count_cons_self]; omega
      · rw [e2, List.count_cons_self, i2, List.length_cons, hm]
      · rw [i3, List.length_cons, hm, List.take_succ_cons]; simp
    · have e0 : db.addSignal r = (db, false) := by simp [SignalDatabase.addSignal, hlt]
      rw [e0] at ih1 ⊢
      obtain ⟨i1, i2, i3, i4⟩ := ih1
      have hz : db.maxSize - db.currentSize = 0 := by omega
      rw [hz] at i2 i3 ⊢
      simp only [Nat.min_zero] at i2 i3 ⊢
      refine ⟨?_, ?_, ?_, i4⟩
      · rw [i1]; simp
      · simpa using i2
      · simpa using i3


/-! ## Order facts about doubles -/

namespace Double

theorem le_trans_bool {a b c : Double} (h1 : le a b = true) (h2 : le b c = true) :
    le a c = true := by
  cases a <;> cases b <;> cases c <;> simp_all [le]
  exact h1.trans h2

theorem le_of_gt {a b : Double} (h : gt a b = true) : le b a = true := by
  cases a <;> cases b <;> simp_all [gt, lt, le]
  exact h.le

theorem le_of_not_gt {a b : Double} (ha : a.isNaN = false) (hb : b.isNaN = false)
    (h : gt a b = false) : le a b = true := by
  cases a <;> cases b <;> simp_all [gt, lt, le, isNaN]

theorem le_of_lt {a b : Double} (h : lt a b = true) : le a b = true := by
  cases a <;> cases b <;> simp_all [lt, le]
  exact h.le

theorem eq_self {a : Double} (ha : a.isNaN = false) : eq a a = true := by
  cases a <;> simp_all [eq, isNaN]

/-- Nothing equal to the target lies at or below a value that is less than the target. -/
theorem no_eq_below {k m t : Double} (hkm : k = m ∨ le k m = true) (hm : lt m t = true)
    (hk : eq k t = true) : False := by
  rcases hkm with rfl | hkm
  · cases k <;> cases t <;> simp_all [lt, eq]
  · cases k <;> cases m <;> cases t <;> simp_all [lt, le, eq]
    exact absurd (lt_of_le_of_lt hkm hm) (lt_irrefl _)

/-- Nothing equal to the target lies at or above a value that is neither equal to nor less
than the target. -/
theorem no_eq_above {k m t : Double} (hmk : k = m ∨ le m k = true) (hne : eq m t = false)
    (hnlt : lt m t = false) (hk : eq k t = true) : False := by
  rcases hmk with rfl | hmk
  · rw [hk] at hne; cases hne
  · cases k <;> cases m <;> cases t <;> simp_all [lt, le, eq]
    exact hne (le_antisymm hmk hnlt)

end Double

/-! ## Sorting -/

namespace SignalDatabase

theorem swapIfGreater_cons_succ (h : WirelessSignal) (l : List WirelessSignal) (j : Nat) :
    swapIfGreater (h :: l) (j + 1) = h :: swapIfGreater l j := by
  unfold swapIfGreater
  simp only [List.getD_cons_succ, List.set_cons_succ]
  split <;> rfl

theorem foldl_swapIfGreater_cons (h : WirelessSignal) (js : List Nat) :
    ∀ l : List WirelessSignal,
      (js.map Nat.succ).foldl swapIfGreater (h :: l) = h :: js.foldl swapIfGreater l := by
  induction js with
  | nil => intro l; rfl
  | cons j js ih =>
    intro l
    simp only [List.map_cons, List.foldl_cons]
    rw [show Nat.succ j = j + 1 from rfl, swapIfGreater_cons_succ, ih]

theorem swapIfGreater_zero (a b : WirelessSignal) (l : List WirelessSignal) :
    swapIfGreater (a :: b :: l) 0
      = if Double.gt a.frequency b.frequency then b :: a :: l else a :: b :: l := by
  unfold swapIfGreater
  simp

/-- One pass of the inner loop over a block of `m + 1` records moves a record of the block
to its end, keeps the block a permutation of itself, and leaves what follows the block
untouched; when no frequency of the block is NaN the record moved to the end is a
greatest one. -/
theorem pass_spec (m : Nat) : ∀ (p s : List WirelessSignal), p.length = m + 1 →
    ∃ (q : List WirelessSignal) (x : WirelessSignal),
      (List.range m).foldl swapIfGreater (p ++ s) = q ++ x :: s ∧
      (q ++ [x]).Perm p ∧
      (NoNaNFrequency p → ∀ y ∈ q, Double.le y.frequency x.frequency = true) := by
  induction m with
  | zero =>
    intro p s hp
    match p, hp with
    | [a], _ => exact ⟨[], a, by simp, by simp, by simp⟩
  | succ m ih =>
    intro p s hp
    match p, hp with
    | a :: b :: t, hp =>
      have ht : (b :: t).length = m + 1 := by simpa using hp
      rw [List.range_succ_eq_map, List.foldl_cons]
      simp only [List.cons_append]
      rw [swapIfGreater_zero]
      by_cases hgt : Double.gt a.frequency b.frequency = true
      · rw [if_pos hgt, foldl_swapIfGreater_cons]
        obtain ⟨q, x, e, hperm, hmax⟩ := ih (a :: t) s (by simpa using ht)
        rw [← List.cons_append, e]
        refine ⟨b :: q, x, by simp, ?_, ?_⟩
        · calc (b :: q ++ [x]).Perm (b :: a :: t) := by
                simpa using hperm
            _ |>.Perm (a :: b :: t) := List.Perm.swap a b t
        · intro hn y hy
          have hna : NoNaNFrequency (a :: t) := fun r hr => hn r (by
            rcases List.mem_cons.mp hr with h | h
            · simp [h]
            · simp [h])
          have hba : Double.le b.frequency a.frequency = true := Double.le_of_gt hgt
          have hax : Double.le b.frequency x.frequency = true := by
            have hmem : a ∈ q ++ [x] := hperm.symm.subset (by simp)
            rcases List.mem_append.mp hmem with h | h
            · exact Double.le_trans_bool hba (hmax hna a h)
            · simp at h; subst h; exact hba
          rcases List.mem_cons.mp hy with h | h
          · subst h; exact hax
          · exact hmax hna y h
      · rw [if_neg hgt, foldl_swapIfGreater_cons]
        obtain ⟨q, x, e, hperm, hmax⟩ := ih (b :: t) s ht
        rw [← List.cons_append, e]
        refine ⟨a :: q, x, by simp, ?_, ?_⟩
        · simpa using hperm
        · intro hn y hy
          have hnb : NoNaNFrequency (b :: t) := fun r hr => hn r (List.mem_cons_of_mem _ hr)
          have hab : Double.le a.frequency b.frequency = true :=
            Double.le_of_not_gt (hn a (by simp)) (hn b (by simp)) (by simpa using hgt)
          have hax : Double.le a.frequency x.frequency = true := by
            have hmem : b ∈ q ++ [x] := hperm.symm.subset (by simp)
            rcases List.mem_append.mp hmem with h | h
            · exact Double.le_trans_bool hab (hmax hnb b h)
            · simp at h; subst h; exact hab
          rcases List.mem_cons.mp hy with h | h
          · subst h; exact hax
          · exact hmax hnb y h

end SignalDatabase

namespace SignalDatabase

/-- After `i` rounds of the outer loop the array is a block `p`, then `i` records `s`, then
the unoccupied slots; the occupied part is a permutation of what it was, and when no
frequency is NaN the records of `s` are in order and none of `p` is above any of `s`. -/
theorem sort_rounds (n : Nat) (occ rest : List WirelessSignal) (hocc : occ.length = n) :
    ∀ i : Nat, i ≤ n - 1 →
      ∃ (p s : List WirelessSignal),
        (List.range i).foldl (sortPass n) (occ ++ rest) = p ++ s ++ rest ∧
        s.length = i ∧ (p ++ s).Perm occ ∧
        (NoNaNFrequency occ →
          s.Pairwise (fun a b => Double.le a.frequency b.frequency = true) ∧
          ∀ x ∈ p, ∀ y ∈ s, Double.le x.frequency y.frequency = true) := by
  intro i
  induction i with
  | zero =>
    intro _
    exact ⟨occ, [], by simp, rfl, by simp, fun _ => ⟨List.Pairwise.nil, by simp⟩⟩
  | succ i ih =>
    intro hi
    obtain ⟨p, s, e, hs, hperm, hord⟩ := ih (by omega)
    have hlen : p.length = (n - i - 1) + 1 := by
      have := hperm.length_eq
      simp only [List.length_append] at this
      omega
    obtain ⟨q, x, e2, hperm2, hmax⟩ := pass_spec (n - i - 1) p (s ++ rest) hlen
    refine ⟨q, x :: s, ?_, by simp [hs], ?_, ?_⟩
    · rw [List.range_succ, List.foldl_append, e]
      simp only [List.foldl_cons, List.foldl_nil, sortPass, List.append_assoc]
      rw [e2]
      simp
    · calc (q ++ x :: s).Perm (q ++ [x] ++ s) := by simp
        _ |>.Perm (p ++ s) := hperm2.append_right s
        _ |>.Perm occ := hperm
    · intro hn
      obtain ⟨hpw, hcross⟩ := hord hn
      have hnp : NoNaNFrequency p := fun r hr =>
        hn r (hperm.subset (List.mem_append_left _ hr))
      have hxp : x ∈ p := hperm2.subset (by simp)
      have hqp : ∀ y ∈ q, y ∈ p := fun y hy => hperm2.subset (List.mem_append_left _ hy)
      refine ⟨List.Pairwise.cons (fun y hy => hcross x hxp y hy) hpw, ?_⟩
      intro z hz y hy
      rcases List.mem_cons.mp hy with h | h
      · subst h; exact hmax hnp z hz
      · exact hcross z (hqp z hz) y h

/-- What `sortByFrequency` does to the array: the occupied slots are replaced by a
permutation of themselves, which is in order when no frequency is NaN, and the unoccupied
slots stay as they are. -/
theorem sort_signals (db : SignalDatabase) (hwf : db.WF) :
    ∃ sorted : List WirelessSignal,
      db.sortByFrequency.signals = sorted ++ db.signals.drop db.currentSize ∧
      sorted.Perm db.occupied ∧
      (NoNaNFrequency db.occupied →
        sorted.Pairwise (fun a b => Double.le a.frequency b.frequency = true)) := by
  obtain ⟨h1, h2⟩ := hwf
  have hocc : db.occupied.length = db.currentSize := by simp [occupied]; omega
  obtain ⟨p, s, e, hs, hperm, hord⟩ :=
    sort_rounds db.currentSize db.occupied (db.signals.drop db.currentSize) hocc
      (db.currentSize - 1) (Nat.le_refl _)
  refine ⟨p ++ s, ?_, hperm, ?_⟩
  · simp only [sortByFrequency]
    rw [← e, occupied, List.take_append_drop]
  · intro hn
    obtain ⟨hpw, hcross⟩ := hord hn
    rw [List.pairwise_append]
    refine ⟨?_, hpw, hcross⟩
    have hpl : p.length ≤ 1 := by
      have := hperm.length_eq
      simp only [List.length_append] at this
      omega
    match p, hpl with
    | [], _ => exact List.Pairwise.nil
    | [a], _ => exact List.pairwise_singleton _ a

theorem sort_occupied (db : SignalDatabase) (hwf : db.WF) :
    db.sortByFrequency.occupied.Perm db.occupied ∧
      (NoNaNFrequency db.occupied →
        db.sortByFrequency.occupied.Pairwise
          (fun a b => Double.le a.frequency b.frequency = true)) := by
  obtain ⟨sorted, e, hperm, hpw⟩ := sort_signals db hwf
  have hlen : sorted.length = db.currentSize := by
    rw [hperm.length_eq]; simp [occupied]; have := hwf.1; have := hwf.2; omega
  have hocc : db.sortByFrequency.occupied = sorted := by
    unfold occupied
    rw [e]
    show List.take db.currentSize _ = _
    rw [← hlen, List.take_left]
  rw [hocc]
  exact ⟨hperm, hpw⟩

theorem sortedByFrequency_of_pairwise (l : List WirelessSignal)
    (h : l.Pairwise (fun a b => Double.le a.frequency b.frequency = true)) :
    SortedByFrequency l := by
  intro j hj i hij
  rw [List.pairwise_iff_getElem] at h
  have := h i j (by omega) hj hij
  rw [List.getD_eq_getElem l default (by omega), List.getD_eq_getElem l default hj]
  exact this

end SignalDatabase

/-! ## Binary search -/

namespace SignalDatabase

/-- With enough fuel the loop returns, and what it returns is `-1` or an index between
`left` and `right` whose frequency equals the target. -/
theorem findLoop_sound (signals : List WirelessSignal) (t : Double) :
    ∀ (fuel : Nat) (left right : Int), 0 ≤ left → (right + 1 - left).toNat < fuel →
      ∃ r : Int, findLoop signals t fuel left right = some r ∧
        (r = -1 ∨ (left ≤ r ∧ r ≤ right ∧
          Double.eq (signals.getD r.toNat default).frequency t = true)) := by
  intro fuel
  induction fuel with
  | zero => intro left right _ h; omega
  | succ fuel ih =>
    intro left right hl hf
    unfold findLoop
    by_cases hlr : left ≤ right
    · rw [if_pos hlr]
      have hmid1 : left ≤ left + (right - left) / 2 := by omega
      have hmid2 : left + (right - left) / 2 ≤ right := by omega
      simp only
      by_cases heq : Double.eq (signals.getD (left + (right - left) / 2).toNat default).frequency t
          = true
      · rw [if_pos heq]
        exact ⟨_, rfl, Or.inr ⟨hmid1, hmid2, heq⟩⟩
      · rw [if_neg heq]
        by_cases hlt : Double.lt
            (signals.getD (left + (right - left) / 2).toNat default).frequency t = true
        · rw [if_pos hlt]
          obtain ⟨r, e, hr⟩ := ih (left + (right - left) / 2 + 1) right (by omega) (by omega)
          refine ⟨r, e, ?_⟩
          rcases hr with h | ⟨h1, h2, h3⟩
          · exact Or.inl h
          · exact Or.inr ⟨by omega, h2, h3⟩
        · rw [if_neg hlt]
          obtain ⟨r, e, hr⟩ := ih left (left + (right - left) / 2 - 1) hl (by omega)
          refine ⟨r, e, ?_⟩
          rcases hr with h | ⟨h1, h2, h3⟩
          · exact Or.inl h
          · exact Or.inr ⟨h1, by omega, h3⟩
    · rw [if_neg hlr]
      exact ⟨-1, rfl, Or.inl rfl⟩

/-- On an array whose first `n` frequencies are in order, a loop that starts inside
`[0, n)` and answers `-1` has no slot equal to the target between `left` and `right`. -/
theorem findLoop_complete (signals : List WirelessSignal) (t : Double) (n : Nat)
    (hsorted : ∀ i j : Nat, i < j → j < n →
      Double.le (signals.getD i default).frequency (signals.getD j default).frequency = true) :
    ∀ (fuel : Nat) (left right : Int), 0 ≤ left → right < n →
      findLoop signals t fuel left right = some (-1) →
      ∀ k : Nat, left ≤ k → (k : Int) ≤ right →
        Double.eq (signals.getD k default).frequency t = false := by
  intro fuel
  induction fuel with
  | zero => intro left right _ _ h; simp [findLoop] at h
  | succ fuel ih =>
    intro left right hl hr hres k hk1 hk2
    unfold findLoop at hres
    have hlr : left ≤ right := by omega
    rw [if_pos hlr] at hres
    simp only at hres
    have hmid1 : left ≤ left + (right - left) / 2 := by omega
    have hmid2 : left + (right - left) / 2 ≤ right := by omega
    generalize hm : left + (right - left) / 2 = mid at hres hmid1 hmid2
    obtain ⟨m, rfl⟩ : ∃ m : Nat, mid = (m : Int) := ⟨mid.toNat, by omega⟩
    simp only [Int.toNat_ofNat] at hres
    have hmn : m < n := by omega
    by_cases heq : Double.eq (signals.getD m default).frequency t = true
    · rw [if_pos heq] at hres
      simp only [Option.some.injEq] at hres
      omega
    · rw [if_neg heq] at hres
      by_cases hlt : Double.lt (signals.getD m default).frequency t = true
      · rw [if_pos hlt] at hres
        by_cases hkm : k ≤ m
        · by_contra hc
          have hc1 : Double.eq (signals.getD k default).frequency t = true :=
            (Bool.not_eq_false _).mp hc
          refine Double.no_eq_below ?_ hlt hc1
          rcases Nat.eq_or_lt_of_le hkm with h | h
          · exact Or.inl (by rw [h])
          · exact Or.inr (hsorted k m h hmn)
        · exact ih (m + 1) right (by omega) hr hres k (by omega) hk2
      · rw [if_neg hlt] at hres
        by_cases hkm : m ≤ k
        · by_contra hc
          have hc1 : Double.eq (signals.getD k default).frequency t = true :=
            (Bool.not_eq_false _).mp hc
          refine Double.no_eq_above ?_ (Bool.eq_false_iff.mpr heq) (Bool.eq_false_iff.mpr hlt) hc1
          rcases Nat.eq_or_lt_of_le hkm with h | h
          · exact Or.inl (by rw [h])
          · exact Or.inr (hsorted m k h (by omega))
        · exact ih left (m - 1) hl (by omega) hres k hk1 (by omega)

theorem occupied_getD (db : SignalDatabase) (k : Nat) (hk : k < db.currentSize) :
    db.occupied.getD k default = db.signals.getD k default := by
  simp [occupied, List.getElem?_take, hk]

end SignalDatabase

namespace SignalDatabase

theorem sorted_signals_of_occupied (db : SignalDatabase)
    (hsorted : SortedByFrequency db.occupied) (hwf : db.WF) :
    ∀ i j : Nat, i < j → j < db.currentSize →
      Double.le (db.signals.getD i default).frequency
        (db.signals.getD j default).frequency = true := by
  intro i j hij hj
  have h := hsorted j (by rw [occupied_length db hwf]; exact hj) i hij
  rwa [occupied_getD db i (by omega), occupied_getD db j hj] at h

/-- The search always returns; it returns `-1` exactly when no occupied slot equals the
target, provided the occupied slots are in order, and any other result is the index of an
occupied slot that equals the target. -/
theorem find_spec (db : SignalDatabase) (t : Double) (hwf : db.WF)
    (hsorted : SortedByFrequency db.occupied) :
    ∃ r : Int, db.findSignalByFrequency t = some r ∧
      (r = -1 ↔ ∀ s ∈ db.occupied, Double.eq s.frequency t = false) ∧
      (r ≠ -1 → 0 ≤ r ∧ r < db.currentSize ∧
        Double.eq (db.occupied.getD r.toNat default).frequency t = true) := by
  obtain ⟨r, e, hr⟩ := findLoop_sound db.signals t (db.currentSize + 1) 0
    ((db.currentSize : Int) - 1) (le_refl _) (by omega)
  have hfound : r ≠ -1 → 0 ≤ r ∧ r < db.currentSize ∧
      Double.eq (db.occupied.getD r.toNat default).frequency t = true := by
    intro hne
    rcases hr with h | ⟨h1, h2, h3⟩
    · exact absurd h hne
    · refine ⟨h1, by omega, ?_⟩
      rw [occupied_getD db r.toNat (by omega)]
      exact h3
  refine ⟨r, e, ⟨?_, ?_⟩, hfound⟩
  · intro hr1 s hs
    subst hr1
    obtain ⟨k, hk, rfl⟩ := List.getElem_of_mem hs
    have hk2 : k < db.currentSize := by rw [← occupied_length db hwf]; exact hk
    have := findLoop_complete db.signals t db.currentSize
      (sorted_signals_of_occupied db hsorted hwf) (db.currentSize + 1) 0
      ((db.currentSize : Int) - 1) (le_refl _) (by omega) e k (by omega) (by omega)
    rw [← occupied_getD db k hk2, List.getD_eq_getElem _ _ hk] at this
    exact this
  · intro hnone
    by_contra hne
    obtain ⟨h1, h2, h3⟩ := hfound hne
    have hlt : r.toNat < db.occupied.length := by rw [occupied_length db hwf]; omega
    rw [List.getD_eq_getElem _ _ hlt] at h3
    rw [hnone _ (List.getElem_mem hlt)] at h3
    cases h3

end SignalDatabase

theorem Double.lt_irrefl_of_eq {a b : Double} (h : Double.eq a b = true) :
    Double.lt a b = false ∧ Double.lt b a = false := by
  cases a <;> cases b <;> simp_all [Double.lt, Double.eq]

theorem sortedByFrequency_of_strict (l : List WirelessSignal) (h : StrictlyAscending l) :
    SortedByFrequency l :=
  fun j hj i hij => Double.le_of_lt (h j hj i hij)

namespace SignalDatabase

/-- In a strictly ascending store, searching for the frequency of slot `i` returns `i`,
unless that frequency is NaN. -/
theorem find_strict (db : SignalDatabase) (i : Nat) (hwf : db.WF)
    (hstrict : StrictlyAscending db.occupied) (hi : i < db.currentSize)
    (hnan : (db.occupied.getD i default).frequency.isNaN = false) :
    db.findSignalByFrequency (db.occupied.getD i default).frequency = some (i : Int) := by
  obtain ⟨r, e, hiff, hfound⟩ := find_spec db (db.occupied.getD i default).frequency hwf
    (sortedByFrequency_of_strict _ hstrict)
  have hlen := occupied_length db hwf
  have hne : r ≠ -1 := by
    intro h1
    have h2 := hiff.mp h1 (db.occupied.getD i default) (by
      rw [List.getD_eq_getElem _ _ (by omega)]
      exact List.getElem_mem _)
    rw [Double.eq_self hnan] at h2
    cases h2
  obtain ⟨h1, h2, h3⟩ := hfound hne
  obtain ⟨h4, h5⟩ := Double.lt_irrefl_of_eq h3
  rw [e]
  congr 1
  rcases Nat.lt_trichotomy r.toNat i with h | h | h
  · rw [hstrict i (by omega) r.toNat h] at h4; cases h4
  · omega
  · rw [hstrict r.toNat (by omega) i h] at h5; cases h5

end SignalDatabase

/-! ## Loops over the occupied slots -/

theorem range_map_getD (signals : List WirelessSignal) :
    ∀ n : Nat, n ≤ signals.length →
      (List.range n).map (fun i => signals.getD i default) = signals.take n := by
  intro n
  induction n with
  | zero => intro _; simp
  | succ n ih =>
    intro h
    rw [List.range_succ, List.map_append, ih (by omega), List.take_succ]
    simp [List.getElem?_eq_getElem (show n < signals.length by omega)]

theorem foldl_range_getD {β : Type} (signals : List WirelessSignal) (g : β → WirelessSignal → β)
    (init : β) (n : Nat) (h : n ≤ signals.length) :
    (List.range n).foldl (fun acc i => g acc (signals.getD i default)) init
      = (signals.take n).foldl g init := by
  rw [← range_map_getD signals n h, List.foldl_map]

namespace SignalDatabase

theorem range_fold_filter (minPower maxPower : Double) (l : List WirelessSignal) :
    ∀ acc : List WirelessSignal × Bool,
      l.foldl (fun (acc : List WirelessSignal × Bool) r =>
          if Double.ge r.power minPower && Double.le r.power maxPower then
            (acc.1 ++ [r], true)
          else acc) acc
        = (acc.1 ++ l.filter (fun r => Double.ge r.power minPower && Double.le r.power maxPower),
           acc.2 || !(l.filter
             (fun r => Double.ge r.power minPower && Double.le r.power maxPower)).isEmpty) := by
  induction l with
  | nil => intro acc; simp
  | cons r l ih =>
    intro acc
    rw [List.foldl_cons, ih]
    by_cases hr : (Double.ge r.power minPower && Double.le r.power maxPower) = true
    · simp [hr, List.filter_cons]
    · simp [hr, List.filter_cons]

theorem powerRange_spec (db : SignalDatabase) (minPower maxPower : Double) (hwf : db.WF) :
    (db.findSignalsInPowerRange minPower maxPower).1
        = db.occupied.filter
            (fun r => Double.ge r.power minPower && Double.le r.power maxPower) ∧
      ((db.findSignalsInPowerRange minPower maxPower).2 = true ↔
        (db.findSignalsInPowerRange minPower maxPower).1 = []) := by
  have hlen : db.currentSize ≤ db.signals.length := by
    have := hwf.1; have := hwf.2; omega
  have e := foldl_range_getD db.signals
    (fun (acc : List WirelessSignal × Bool) r =>
      if Double.ge r.power minPower && Double.le r.power maxPower then
        (acc.1 ++ [r], true)
      else acc) ([], false) db.currentSize hlen
  unfold findSignalsInPowerRange
  simp only at e ⊢
  rw [e, range_fold_filter]
  simp [occupied, List.isEmpty_iff]

end SignalDatabase

/-! ## Saving and loading -/

theorem WirelessSignal.saveToFile_eq (lib : StreamLib) (r : WirelessSignal) (file : List Char) :
    r.saveToFile lib file = file ++ recordLine lib r := by
  simp [WirelessSignal.saveToFile, recordLine]

theorem foldl_saveToFile (lib : StreamLib) (l : List WirelessSignal) :
    ∀ file : List Char,
      l.foldl (fun file r => r.saveToFile lib file) file
        = file ++ (l.map (recordLine lib)).flatten := by
  induction l with
  | nil => intro file; simp
  | cons r l ih =>
    intro file
    rw [List.foldl_cons, ih, WirelessSignal.saveToFile_eq]
    simp

/-- The text that `saveToFile` writes when the file can be opened. -/
theorem SignalDatabase.saveToFile_text (lib : StreamLib) (db : SignalDatabase) (hwf : db.WF) :
    db.saveToFile lib true = (db, some (databaseText lib db.occupied)) := by
  have hlen : db.currentSize ≤ db.signals.length := by
    have := hwf.1; have := hwf.2; omega
  have e := foldl_range_getD db.signals (fun file r => r.saveToFile lib file)
    (lib.showInt db.currentSize ++ ['\n']) db.currentSize hlen
  simp only [SignalDatabase.saveToFile, if_true]
  rw [e, foldl_saveToFile]
  simp only [databaseText]
  rw [SignalDatabase.occupied_length db hwf]
  simp [SignalDatabase.occupied]

theorem dropWhile_isspace_token (label rest : List Char) (hne : label ≠ [])
    (hns : ∀ c ∈ label, isspace c = false) :
    ('\n' :: (label ++ rest)).dropWhile isspace = label ++ rest := by
  match label, hne with
  | c :: cs, _ =>
    have hc : isspace c = false := hns c (by simp)
    have hn : isspace '\n' = true := by decide
    simp [List.dropWhile, hc, hn]

theorem takeWhile_token (label rest : List Char) (hns : ∀ c ∈ label, isspace c = false) :
    (label ++ ' ' :: rest).takeWhile (fun c => !isspace c) = label ∧
      (label ++ ' ' :: rest).dropWhile (fun c => !isspace c) = ' ' :: rest := by
  induction label with
  | nil =>
    have hs : isspace ' ' = true := by decide
    simp [List.takeWhile, List.dropWhile, hs]
  | cons c cs ih =>
    have hc : isspace c = false := hns c (by simp)
    obtain ⟨i1, i2⟩ := ih (fun d hd => hns d (List.mem_cons_of_mem _ hd))
    simp [List.takeWhile, List.dropWhile, hc, i1, i2]

/-- Reading back the line of a record that survives printing yields the record and stops
in front of the end of the line. -/
theorem WirelessSignal.loadFromFile_line (lib : StreamLib) (r start : WirelessSignal)
    (hr : lib.RecordSurvives r) (rest : List Char) :
    start.loadFromFile lib { unread := '\n' :: (recordLine lib r ++ rest), good := true }
      = (r, { unread := '\n' :: rest, good := true }) := by
  obtain ⟨⟨hne, hns⟩, hp, hf, hd⟩ := hr
  have e1 := dropWhile_isspace_token r.deviceType.data
    (' ' :: (lib.showDouble r.power ++ ' ' :: (lib.showDouble r.frequency
      ++ ' ' :: (lib.showDouble r.distance ++ '\n' :: rest)))) hne hns
  obtain ⟨e2, e3⟩ := takeWhile_token r.deviceType.data
    (lib.showDouble r.power ++ ' ' :: (lib.showDouble r.frequency
      ++ ' ' :: (lib.showDouble r.distance ++ '\n' :: rest))) hns
  have hnil : r.deviceType.data ++ ' ' :: (lib.showDouble r.power ++ ' ' ::
      (lib.showDouble r.frequency ++ ' ' :: (lib.showDouble r.distance ++ '\n' :: rest))) ≠ [] := by
    simp
  have e4 := hp ' ' (lib.showDouble r.frequency ++ ' ' :: (lib.showDouble r.distance
    ++ '\n' :: rest)) (Or.inl rfl)
  have e5 := hf ' ' (lib.showDouble r.distance ++ '\n' :: rest) (Or.inl rfl)
  have e6 := hd '\n' rest (Or.inr rfl)
  have etext : '\n' :: (recordLine lib r ++ rest)
      = '\n' :: (r.deviceType.data ++ ' ' :: (lib.showDouble r.power ++ ' ' ::
          (lib.showDouble r.frequency ++ ' ' :: (lib.showDouble r.distance ++ '\n' :: rest)))) := by
    simp [recordLine]
  rw [etext]
  simp only [WirelessSignal.loadFromFile, IFStream.extractString, IFStream.extractDouble,
    if_true, e1, if_neg hnil, e2, e3, e4, e5, e6]

theorem holdsRecords_of_survive (lib : StreamLib) (records : List WirelessSignal)
    (hr : ∀ r ∈ records, lib.RecordSurvives r) :
    IFStream.holdsRecords lib
      { unread := '\n' :: (records.map (recordLine lib)).flatten, good := true } records
      = true := by
  induction records with
  | nil => rfl
  | cons r rs ih =>
    have e := WirelessSignal.loadFromFile_line lib r default (hr r (by simp))
      ((rs.map (recordLine lib)).flatten)
    simp only [List.map_cons, List.flatten_cons]
    simp only [IFStream.holdsRecords, e]
    simpa using ih (fun x hx => hr x (List.mem_cons_of_mem _ hx))

/-- The text of records that survive printing, below a count that survives printing, is
well formed. -/
theorem wellFormed_databaseText (lib : StreamLib) (records : List WirelessSignal)
    (hn : lib.IntSurvives records.length) (hr : ∀ r ∈ records, lib.RecordSurvives r) :
    WellFormedText lib (databaseText lib records) records.length records := by
  have e := hn (records.map (recordLine lib)).flatten
  refine ⟨rfl, ?_, ?_⟩
  · simp only [databaseText]
    rw [e]
  · simp only [databaseText]
    rw [e]
    exact holdsRecords_of_survive lib records hr

namespace SignalDatabase

/-- Running the loading loop `k` times on a stream that holds at least `k` records, in a
store with room for `k` more, appends the first `k` of them to the occupied slots. -/
theorem loadLoop_spec (lib : StreamLib) :
    ∀ (k : Nat) (records : List WirelessSignal) (db : SignalDatabase) (file : IFStream),
      db.WF → IFStream.holdsRecords lib file records = true → k ≤ records.length →
      db.currentSize + k ≤ db.maxSize →
      (loadLoop lib k (db, file)).1.currentSize = db.currentSize + k ∧
      (loadLoop lib k (db, file)).1.occupied = db.occupied ++ records.take k ∧
      (loadLoop lib k (db, file)).1.maxSize = db.maxSize := by
  intro k
  induction k with
  | zero => intro records db file _ _ _ _; simp [loadLoop]
  | succ k ih =>
    intro records db file hwf hh hk hroom
    match records, hk with
    | r :: rs, hk =>
      simp only [IFStream.holdsRecords, Bool.and_eq_true, decide_eq_true_eq] at hh
      obtain ⟨⟨⟨-, -⟩, hread⟩, hrest⟩ := hh
      have hlt : db.currentSize < db.maxSize := by omega
      have hocc := addSignal_occupied_of_lt db r hwf hlt
      have hcs : (db.addSignal r).1.currentSize = db.currentSize + 1 := by
        simp [addSignal, hlt]
      have hms := addSignal_maxSize db r
      obtain ⟨i1, i2, i3⟩ := ih rs (db.addSignal r).1
        ((default : WirelessSignal).loadFromFile lib file).2 (addSignal_WF db r hwf) hrest
        (by simpa using hk) (by rw [hcs, hms]; omega)
      simp only [loadLoop, hread]
      refine ⟨by rw [i1, hcs]; omega, ?_, by rw [i3, hms]⟩
      rw [i2, hocc]
      simp

/-- Loading a well-formed text of `n` records fills the store with the first
`min n maxSize` of them. -/
theorem loadFromFile_wellFormed (lib : StreamLib) (db : SignalDatabase) (text : List Char)
    (n : Nat) (records : List WirelessSignal) (hwf : db.WF)
    (htext : WellFormedText lib text n records) (uninitialized : Int) :
    (db.loadFromFile lib (some text) uninitialized).currentSize = min n db.maxSize ∧
      (db.loadFromFile lib (some text) uninitialized).occupied
        = records.take (min n db.maxSize) := by
  obtain ⟨hlen, hvalue, hrecs⟩ := htext
  have hwf0 : ({ db with currentSize := 0 } : SignalDatabase).WF := ⟨hwf.1, Nat.zero_le _⟩
  cases hrest : (lib.readInt text).2 with
  | none => rw [hrest] at hrecs; cases hrecs
  | some rest =>
    rw [hrest] at hrecs
    have hcount : lib.readInt text = (some (n : Int), some rest) := Prod.ext hvalue hrest
    obtain ⟨i1, i2, -⟩ := loadLoop_spec lib (min n db.maxSize) records
      { db with currentSize := 0 } { unread := rest, good := true } hwf0 hrecs
      (by omega) (by simp)
    simp only [loadFromFile, IFStream.extractInt, if_true, hcount, Option.getD_some,
      Int.toNat_ofNat]
    refine ⟨by simpa using i1, ?_⟩
    rw [i2]
    simp [occupied]

end SignalDatabase

/-- A label read by `>>` has no white space in it, if the label it replaces had none. -/
theorem IFStream.extractString_no_space (file : IFStream) (s : String)
    (hs : ∀ c ∈ s.data, isspace c = false) :
    ∀ c ∈ (file.extractString s).1.data, isspace c = false := by
  unfold IFStream.extractString
  by_cases hg : file.good = true
  · rw [if_pos hg]
    simp only
    by_cases hb : List.dropWhile isspace file.unread = []
    · rw [if_pos hb]; exact hs
    · rw [if_neg hb]
      intro c hc
      have := List.mem_takeWhile_imp hc
      simpa using this
  · rw [if_neg hg]; exact hs

/-- The label of a record loaded from any stream into a default-constructed record has no
white space in it. -/
theorem WirelessSignal.loadFromFile_label (lib : StreamLib) (file : IFStream) :
    ∀ c ∈ ((default : WirelessSignal).loadFromFile lib file).1.deviceType.data,
      isspace c = false :=
  IFStream.extractString_no_space file _ (by decide)

theorem SignalDatabase.loadLoop_labels (lib : StreamLib) :
    ∀ (k : Nat) (db : SignalDatabase) (file : IFStream), db.WF →
      (∀ r ∈ db.occupied, ∀ c ∈ r.deviceType.data, isspace c = false) →
      ∀ r ∈ (loadLoop lib k (db, file)).1.occupied, ∀ c ∈ r.deviceType.data,
        isspace c = false := by
  intro k
  induction k with
  | zero => intro db file _ h; simpa [loadLoop] using h
  | succ k ih =>
    intro db file hwf h
    simp only [loadLoop]
    apply ih _ _ (addSignal_WF db _ hwf)
    by_cases hlt : db.currentSize < db.maxSize
    · rw [addSignal_occupied_of_lt db _ hwf hlt]
      intro r hr
      rcases List.mem_append.mp hr with h1 | h1
      · exact h r h1
      · simp only [List.mem_singleton] at h1
        subst h1
        exact WirelessSignal.loadFromFile_label lib file
    · have e0 : ∀ r, db.addSignal r = (db, false) := by
        intro r; simp [addSignal, hlt]
      rw [e0]
      exact h

/-- No record that `loadFromFile` puts into a store has white space in its label. -/
theorem SignalDatabase.loadFromFile_labels (lib : StreamLib) (db : SignalDatabase)
    (text : List Char) (uninitialized : Int) (hwf : db.WF) :
    ∀ r ∈ (db.loadFromFile lib (some text) uninitialized).occupied,
      ∀ c ∈ r.deviceType.data, isspace c = false := by
  have hwf0 : ({ db with currentSize := 0 } : SignalDatabase).WF := ⟨hwf.1, Nat.zero_le _⟩
  simp only [loadFromFile]
  apply loadLoop_labels lib _ _ _ hwf0
  intro r hr
  simp [occupied] at hr

/-! ## The stream library for whole numbers -/

theorem isspace_not_digit (c : Char) (h : c.isDigit = true) : isspace c = false := by
  by_contra hc
  have hs : isspace c = true := by simpa using hc
  simp only [isspace, Bool.or_eq_true, decide_eq_true_eq] at hs
  rcases hs with ((((rfl | rfl) | rfl) | rfl) | rfl) | rfl <;> revert h <;> decide

theorem takeWhile_digits (digits : List Char) (sep : Char) (rest : List Char)
    (hdig : ∀ c ∈ digits, c.isDigit = true) (hsep : sep.isDigit = false) :
    (digits ++ sep :: rest).takeWhile Char.isDigit = digits ∧
      (digits ++ sep :: rest).dropWhile Char.isDigit = sep :: rest := by
  induction digits with
  | nil => simp [List.takeWhile, List.dropWhile, hsep]
  | cons c cs ih =>
    have hc : c.isDigit = true := hdig c (by simp)
    obtain ⟨i1, i2⟩ := ih (fun d hd => hdig d (List.mem_cons_of_mem _ hd))
    simp [List.takeWhile, List.dropWhile, hc, i1, i2]

theorem readDecimal_digits (digits : List Char) (sep : Char) (rest : List Char)
    (hne : digits ≠ []) (hdig : ∀ c ∈ digits, c.isDigit = true) (hsep : sep.isDigit = false) :
    readDecimal (digits ++ sep :: rest)
        = (digits.foldl (fun value c => 10 * value + (c.toNat - 48)) 0, some (sep :: rest)) ∧
      readDecimal (' ' :: (digits ++ sep :: rest))
        = (digits.foldl (fun value c => 10 * value + (c.toNat - 48)) 0, some (sep :: rest)) := by
  obtain ⟨e1, e2⟩ := takeWhile_digits digits sep rest hdig hsep
  have hdrop : (digits ++ sep :: rest).dropWhile isspace = digits ++ sep :: rest := by
    match digits, hne with
    | c :: cs, _ =>
      have hc : isspace c = false := isspace_not_digit c (hdig c (by simp))
      simp [List.dropWhile, hc]
  have hdrop2 : (' ' :: (digits ++ sep :: rest)).dropWhile isspace = digits ++ sep :: rest := by
    have hs : isspace ' ' = true := by decide
    rw [List.dropWhile_cons, if_pos hs, hdrop]
  constructor
  · simp only [readDecimal, hdrop, e1, e2, if_neg hne]
  · simp only [readDecimal, hdrop2, e1, e2, if_neg hne]

/-- A double that the whole-number library prints as digits whose value it is survives
printing and reading. -/
theorem decimalLib_doubleSurvives (d : Double)
    (h : decimalLib.showDouble d ≠ [] ∧ (∀ c ∈ decimalLib.showDouble d, c.isDigit = true) ∧
      Double.ofRat ((decimalLib.showDouble d).foldl
        (fun value c => 10 * value + (c.toNat - 48)) 0 : Nat) = d) :
    decimalLib.DoubleSurvives d := by
  intro sep rest hsep
  obtain ⟨hne, hdig, hval⟩ := h
  have hs : sep.isDigit = false := by rcases hsep with rfl | rfl <;> decide
  have e := (readDecimal_digits (decimalLib.showDouble d) sep rest hne hdig hs).2
  show (Double.ofRat (readDecimal _).1, (readDecimal _).2) = _
  rw [e]
  simp only [hval]

/-- A count that the whole-number library prints as digits whose value it is survives
printing and reading. -/
theorem decimalLib_intSurvives (n : Int)
    (h : decimalLib.showInt n ≠ [] ∧ (∀ c ∈ decimalLib.showInt n, c.isDigit = true) ∧
      (((decimalLib.showInt n).foldl
        (fun value c => 10 * value + (c.toNat - 48)) 0 : Nat) : Int) = n) :
    decimalLib.IntSurvives n := by
  intro rest
  obtain ⟨hne, hdig, hval⟩ := h
  have e := (readDecimal_digits (decimalLib.showInt n) '\n' rest hne hdig (by decide)).1
  have hbody : (decimalLib.showInt n ++ '\n' :: rest).dropWhile isspace ≠ [] := by
    match hs : decimalLib.showInt n, hne with
    | c :: cs, _ =>
      have hc : isspace c = false :=
        isspace_not_digit c (hdig c (by rw [hs]; simp))
      simp [List.dropWhile, hc]
  show (if (decimalLib.showInt n ++ '\n' :: rest).dropWhile isspace = [] then none
    else some (((readDecimal _).1 : Nat) : Int), (readDecimal _).2) = _
  rw [if_neg hbody, e]
  simp only [hval]

theorem fiveSignals_survive : ∀ r ∈ fiveSignals, decimalLib.RecordSurvives r := by
  intro r hr
  simp only [fiveSignals, List.mem_cons, List.mem_singleton, List.not_mem_nil, or_false] at hr
  rcases hr with rfl | rfl | rfl | rfl | rfl <;>
    exact ⟨by decide, decimalLib_doubleSurvives _ (by decide),
      decimalLib_doubleSurvives _ (by decide), decimalLib_doubleSurvives _ (by decide)⟩

/-! ## The claims about insertion -/

/-- C1: for every store with `count == capacity` and every record `r`, `addSignal(r)`
returns false and leaves the count and every occupied slot as they were; indeed it leaves
the whole store as it was. -/
theorem addSignal_when_full (db : SignalDatabase) (r : WirelessSignal)
    (hfull : db.currentSize = db.maxSize) :
    (db.addSignal r).2 = false ∧ (db.addSignal r).1.currentSize = db.currentSize ∧
      (db.addSignal r).1.occupied = db.occupied ∧ (db.addSignal r).1 = db := by
  simp [SignalDatabase.addSignal, hfull]

theorem addSignal_when_full_witness :
    fiveDatabase.currentSize = fiveDatabase.maxSize ∧
      (fiveDatabase.addSignal default).2 = false ∧
      (fiveDatabase.addSignal default).1.currentSize = fiveDatabase.currentSize ∧
      (fiveDatabase.addSignal default).1.occupied = fiveDatabase.occupied ∧
      (fiveDatabase.addSignal default).1 = fiveDatabase :=
  ⟨by decide, addSignal_when_full fiveDatabase default (by decide)⟩

/-- C2: for every store with `count < capacity` and every record `r`, `addSignal(r)`
returns true, the new count is the old count plus one, the slot at the old index `count`
holds `r`, and every slot at an index below the old count is unchanged. -/
theorem addSignal_when_room (db : SignalDatabase) (r : WirelessSignal) (hwf : db.WF)
    (hroom : db.currentSize < db.maxSize) :
    (db.addSignal r).2 = true ∧
      (db.addSignal r).1.currentSize = db.currentSize + 1 ∧
      (db.addSignal r).1.signals[db.currentSize]? = some r ∧
      ∀ k : Nat, k < db.currentSize → (db.addSignal r).1.signals[k]? = db.signals[k]? := by
  obtain ⟨h1, h2⟩ := hwf
  have hlen : db.currentSize < db.signals.length := by omega
  simp only [SignalDatabase.addSignal, if_pos hroom]
  refine ⟨trivial, trivial, ?_, ?_⟩
  · simp [hlen]
  · intro k hk
    exact List.getElem?_set_ne (by omega)

theorem addSignal_when_room_witness :
    demoDatabase.WF ∧ demoDatabase.currentSize < demoDatabase.maxSize ∧
      (demoDatabase.addSignal default).2 = true ∧
      (demoDatabase.addSignal default).1.currentSize = demoDatabase.currentSize + 1 ∧
      (demoDatabase.addSignal default).1.signals[demoDatabase.currentSize]? = some default ∧
      ∀ k : Nat, k < demoDatabase.currentSize →
        (demoDatabase.addSignal default).1.signals[k]? = demoDatabase.signals[k]? :=
  ⟨by decide, by decide, addSignal_when_room demoDatabase default (by decide) (by decide)⟩

/-- C3: for every capacity `c` and every list of `n` records inserted one after another
with `addSignal` into a freshly constructed store of capacity `c`, the final count equals
the number of calls that returned true, which is `min n c`, and the occupied slots hold
the first `min n c` records of the list in insertion order. -/
theorem addSignals_into_new (c : Nat) (rs : List WirelessSignal) :
    ((SignalDatabase.new c).addSignals rs).2.length = rs.length ∧
      ((SignalDatabase.new c).addSignals rs).1.currentSize
        = ((SignalDatabase.new c).addSignals rs).2.count true ∧
      ((SignalDatabase.new c).addSignals rs).2.count true = min rs.length c ∧
      ((SignalDatabase.new c).addSignals rs).1.occupied = rs.take (min rs.length c) := by
  obtain ⟨h1, h2, h3, -⟩ := SignalDatabase.addSignals_spec rs (SignalDatabase.new c)
    (SignalDatabase.new_WF c)
  refine ⟨SignalDatabase.addSignals_flags rs _, ?_, ?_, ?_⟩
  · simpa [SignalDatabase.new] using h1
  · simpa [SignalDatabase.new] using h2
  · simpa [SignalDatabase.new, SignalDatabase.occupied] using h3

/-! ## The claims about sorting -/

/-- C4: for every store, the state after `sortByFrequency` has the same count and
capacity, and its occupied slots are a permutation of the occupied slots before: the
multiset of whole records is the same. -/
theorem sortByFrequency_permutes (db : SignalDatabase) (hwf : db.WF) :
    db.sortByFrequency.currentSize = db.currentSize ∧
      db.sortByFrequency.maxSize = db.maxSize ∧
      db.sortByFrequency.occupied.Perm db.occupied :=
  ⟨rfl, rfl, (SignalDatabase.sort_occupied db hwf).1⟩

theorem sortByFrequency_permutes_witness :
    demoDatabase.WF ∧ demoDatabase.sortByFrequency.currentSize = demoDatabase.currentSize ∧
      demoDatabase.sortByFrequency.maxSize = demoDatabase.maxSize ∧
      demoDatabase.sortByFrequency.occupied.Perm demoDatabase.occupied :=
  ⟨by decide, sortByFrequency_permutes demoDatabase (by decide)⟩

/-- C5, as amended: for every store none of whose occupied frequencies is NaN, after
`sortByFrequency` the frequency values are non-decreasing across the occupied slots: for
all indices `i < j < count`, `signals[i].frequency <= signals[j].frequency`. -/
theorem sortByFrequency_sorts (db : SignalDatabase) (hwf : db.WF)
    (hnan : NoNaNFrequency db.occupied) :
    SortedByFrequency db.sortByFrequency.occupied :=
  SignalDatabase.sortedByFrequency_of_pairwise _ ((SignalDatabase.sort_occupied db hwf).2 hnan)

theorem sortByFrequency_sorts_witness :
    demoDatabase.WF ∧ NoNaNFrequency demoDatabase.occupied ∧
      SortedByFrequency demoDatabase.sortByFrequency.occupied :=
  ⟨by decide, by decide, sortByFrequency_sorts demoDatabase (by decide) (by decide)⟩

/-- C5 as stated fails: the store that holds a record with a NaN frequency and then one with
frequency `1` is left as it is by `sortByFrequency`, since `NaN > 1` is false, and
`NaN <= 1` is false as well. -/
theorem sortByFrequency_nan_not_sorted :
    nanDatabase.WF ∧ ¬ SortedByFrequency nanDatabase.sortByFrequency.occupied := by
  decide

/-! ## The claims about searching -/

/-- C6: for every store whose occupied slots are sorted ascending (non-decreasing) by
frequency and every target, `findSignalByFrequency(target)` returns, and it returns the
not-found value `-1` if and only if no occupied slot has a frequency equal to the target;
otherwise it returns an index `i` in `[0, count)` with `signals[i].frequency == target`. -/
theorem findSignalByFrequency_sorted (db : SignalDatabase) (t : Double) (hwf : db.WF)
    (hsorted : SortedByFrequency db.occupied) :
    ∃ r : Int, db.findSignalByFrequency t = some r ∧
      (r = -1 ↔ ∀ s ∈ db.occupied, Double.eq s.frequency t = false) ∧
      (r ≠ -1 → 0 ≤ r ∧ r < db.currentSize ∧
        Double.eq (db.occupied.getD r.toNat default).frequency t = true) :=
  SignalDatabase.find_spec db t hwf hsorted

theorem findSignalByFrequency_sorted_witness :
    demoDatabase.sortByFrequency.WF ∧
      SortedByFrequency demoDatabase.sortByFrequency.occupied ∧
      ∃ r : Int, demoDatabase.sortByFrequency.findSignalByFrequency (Double.ofRat 2450)
          = some r ∧
        (r = -1 ↔ ∀ s ∈ demoDatabase.sortByFrequency.occupied,
          Double.eq s.frequency (Double.ofRat 2450) = false) ∧
        (r ≠ -1 → 0 ≤ r ∧ r < demoDatabase.sortByFrequency.currentSize ∧
          Double.eq (demoDatabase.sortByFrequency.occupied.getD r.toNat default).frequency
            (Double.ofRat 2450) = true) :=
  ⟨by decide, by decide,
    findSignalByFrequency_sorted demoDatabase.sortByFrequency (Double.ofRat 2450) (by decide)
      (by decide)⟩

theorem strictlyAscending_three (l : List WirelessSignal)
    (h : l.map (fun r => r.frequency)
      = [Double.dec 1015 1, Double.ofRat 2400, Double.ofRat 2450]) :
    StrictlyAscending l := by
  have hlen : l.length = 3 := by
    have := congrArg List.length h
    simpa using this
  obtain ⟨x, y, z, rfl⟩ := List.length_eq_three.mp hlen
  simp only [List.map_cons, List.map_nil, List.cons.injEq, and_true] at h
  obtain ⟨hx, hy, hz⟩ := h
  have h1 : Double.lt (Double.dec 1015 1) (Double.ofRat 2400) = true := by decide
  have h2 : Double.lt (Double.dec 1015 1) (Double.ofRat 2450) = true := by decide
  have h3 : Double.lt (Double.ofRat 2400) (Double.ofRat 2450) = true := by decide
  intro j hj i hij
  simp only [List.length_cons, List.length_nil] at hj
  have hj3 : j < 3 := by omega
  interval_cases j <;> interval_cases i <;> simp [List.getD, hx, hy, hz, h1, h2, h3]

/-- C7, as amended: for every store whose occupied slots are strictly ascending by
frequency and every index `i < count` whose frequency is not NaN,
`findSignalByFrequency(signals[i].frequency)` returns exactly `i`.  Concretely, in every
store with the sorted frequencies `[101.5, 2400.0, 2450.0]`, searching `2400.0` returns
index 1 and searching `99.9` returns not-found (`-1`). -/
theorem findSignalByFrequency_strict :
    (∀ (db : SignalDatabase) (i : Nat), db.WF → StrictlyAscending db.occupied →
      i < db.currentSize → (db.occupied.getD i default).frequency.isNaN = false →
      db.findSignalByFrequency (db.occupied.getD i default).frequency = some (i : Int)) ∧
    (∀ db : SignalDatabase, db.WF →
      db.occupied.map (fun r => r.frequency)
        = [Double.dec 1015 1, Double.ofRat 2400, Double.ofRat 2450] →
      db.findSignalByFrequency (Double.ofRat 2400) = some 1 ∧
      db.findSignalByFrequency (Double.dec 999 1) = some (-1)) := by
  refine ⟨fun db i hwf hs hi hn => SignalDatabase.find_strict db i hwf hs hi hn, ?_⟩
  intro db hwf hmap
  have hstrict := strictlyAscending_three db.occupied hmap
  have hlen : db.occupied.length = 3 := by
    have := congrArg List.length hmap
    simpa using this
  have hcs : db.currentSize = 3 := by rw [← SignalDatabase.occupied_length db hwf, hlen]
  have hget : ∀ k : Nat, (db.occupied.getD k default).frequency
      = (db.occupied.map (fun r => r.frequency)).getD k (default : WirelessSignal).frequency := by
    intro k
    simp only [List.getD_eq_getElem?_getD, List.getElem?_map]
    cases db.occupied[k]? <;> rfl
  constructor
  · have h1 := SignalDatabase.find_strict db 1 hwf hstrict (by omega)
      (by rw [hget, hmap]; decide)
    have e1 : (db.occupied.getD 1 default).frequency = Double.ofRat 2400 := by
      rw [hget, hmap]; rfl
    rw [e1] at h1
    exact h1
  · obtain ⟨r, e, hiff, -⟩ := SignalDatabase.find_spec db (Double.dec 999 1) hwf
      (sortedByFrequency_of_strict _ hstrict)
    have hr : r = -1 := by
      apply hiff.mpr
      intro s hs
      have hmem : s.frequency ∈ db.occupied.map (fun r => r.frequency) :=
        List.mem_map_of_mem _ hs
      rw [hmap] at hmem
      simp only [List.mem_cons, List.mem_singleton, List.not_mem_nil, or_false] at hmem
      rcases hmem with h | h | h <;> rw [h] <;> decide
    rw [e, hr]

theorem findSignalByFrequency_strict_witness :
    demoDatabase.sortByFrequency.WF ∧
      StrictlyAscending demoDatabase.sortByFrequency.occupied ∧
      demoDatabase.sortByFrequency.findSignalByFrequency
        (demoDatabase.sortByFrequency.occupied.getD 2 default).frequency = some 2 ∧
      demoDatabase.sortByFrequency.findSignalByFrequency (Double.ofRat 2400) = some 1 ∧
      demoDatabase.sortByFrequency.findSignalByFrequency (Double.dec 999 1) = some (-1) :=
  ⟨by decide, by decide,
    findSignalByFrequency_strict.1 demoDatabase.sortByFrequency 2 (by decide)
      (by decide) (by decide) (by decide),
    findSignalByFrequency_strict.2 demoDatabase.sortByFrequency (by decide) (by decide)⟩

/-- C7 as stated fails: a store whose only record has a NaN frequency is strictly
ascending, and searching for the frequency of its slot 0 returns `-1`, not `0`, since
`NaN == NaN` is false. -/
theorem findSignalByFrequency_nan_not_found :
    singleNaNDatabase.WF ∧ StrictlyAscending singleNaNDatabase.occupied ∧
      0 < singleNaNDatabase.currentSize ∧
      singleNaNDatabase.findSignalByFrequency
        (singleNaNDatabase.occupied.getD 0 default).frequency = some (-1) ∧
      singleNaNDatabase.findSignalByFrequency
        (singleNaNDatabase.occupied.getD 0 default).frequency ≠ some ((0 : Nat) : Int) := by
  decide

/-! ## The claim about the power range query -/

/-- C8: for every store, sorted or not, and every `min` and `max`, the sequence of records
that `findSignalsInPowerRange(min, max)` yields is exactly the occupied slots filtered by
`min <= power <= max`, both bounds inclusive, in storage order, and the "none found"
outcome occurs if and only if that sequence is empty.  Concretely, in every store with the
powers `0.2, 0.001, 50.0`, the range `(0.0, 1.0)` yields the first two records in storage
order and the range `(1000.0, 2000.0)` yields nothing. -/
theorem findSignalsInPowerRange_filters (db : SignalDatabase) (hwf : db.WF) :
    (∀ minPower maxPower : Double,
      (db.findSignalsInPowerRange minPower maxPower).1
          = db.occupied.filter
              (fun r => Double.le minPower r.power && Double.le r.power maxPower) ∧
        ((db.findSignalsInPowerRange minPower maxPower).2 = true ↔
          (db.findSignalsInPowerRange minPower maxPower).1 = [])) ∧
    (db.occupied.map (fun r => r.power)
        = [Double.dec 2 1, Double.dec 1 3, Double.ofRat 50] →
      db.findSignalsInPowerRange (Double.ofRat 0) (Double.ofRat 1)
          = (db.occupied.take 2, false) ∧
        db.findSignalsInPowerRange (Double.ofRat 1000) (Double.ofRat 2000) = ([], true)) := by
  refine ⟨fun minPower maxPower => SignalDatabase.powerRange_spec db minPower maxPower hwf, ?_⟩
  intro hmap
  have hlen : db.occupied.length = 3 := by
    have := congrArg List.length hmap
    simpa using this
  obtain ⟨x, y, z, hocc⟩ := List.length_eq_three.mp hlen
  rw [hocc] at hmap
  simp only [List.map_cons, List.map_nil, List.cons.injEq, and_true] at hmap
  obtain ⟨hx, hy, hz⟩ := hmap
  have a1 : Double.ge (Double.dec 2 1) (Double.ofRat 0) = true := by decide
  have a2 : Double.le (Double.dec 2 1) (Double.ofRat 1) = true := by decide
  have a3 : Double.ge (Double.dec 1 3) (Double.ofRat 0) = true := by decide
  have a4 : Double.le (Double.dec 1 3) (Double.ofRat 1) = true := by decide
  have a5 : Double.le (Double.ofRat 50) (Double.ofRat 1) = false := by decide
  have b1 : Double.ge (Double.dec 2 1) (Double.ofRat 1000) = false := by decide
  have b2 : Double.ge (Double.dec 1 3) (Double.ofRat 1000) = false := by decide
  have b3 : Double.ge (Double.ofRat 50) (Double.ofRat 1000) = false := by decide
  constructor
  · obtain ⟨e1, e2⟩ := SignalDatabase.powerRange_spec db (Double.ofRat 0) (Double.ofRat 1) hwf
    have hshown : (db.findSignalsInPowerRange (Double.ofRat 0) (Double.ofRat 1)).1 = [x, y] := by
      rw [e1, hocc]
      simp [List.filter, hx, hy, hz, a1, a2, a3, a4, a5]
    have hflag : (db.findSignalsInPowerRange (Double.ofRat 0) (Double.ofRat 1)).2 = false := by
      cases hb : (db.findSignalsInPowerRange (Double.ofRat 0) (Double.ofRat 1)).2
      · rfl
      · rw [e2.mp hb] at hshown; cases hshown
    rw [hocc]
    exact Prod.ext hshown hflag
  · obtain ⟨e1, e2⟩ := SignalDatabase.powerRange_spec db (Double.ofRat 1000)
      (Double.ofRat 2000) hwf
    have hshown : (db.findSignalsInPowerRange (Double.ofRat 1000) (Double.ofRat 2000)).1
        = [] := by
      rw [e1, hocc]
      simp [List.filter, hx, hy, hz, b1, b2, b3]
    exact Prod.ext hshown (e2.mpr hshown)

theorem findSignalsInPowerRange_filters_witness :
    demoDatabase.WF ∧
      (demoDatabase.findSignalsInPowerRange (Double.ofRat 0) (Double.ofRat 1)).1
        = demoDatabase.occupied.filter
            (fun r => Double.le (Double.ofRat 0) r.power && Double.le r.power (Double.ofRat 1)) ∧
      demoDatabase.findSignalsInPowerRange (Double.ofRat 0) (Double.ofRat 1)
        = (demoDatabase.occupied.take 2, false) ∧
      demoDatabase.findSignalsInPowerRange (Double.ofRat 1000) (Double.ofRat 2000)
        = ([], true) :=
  ⟨by decide,
    ((findSignalsInPowerRange_filters demoDatabase (by decide)).1
      (Double.ofRat 0) (Double.ofRat 1)).1,
    (findSignalsInPowerRange_filters demoDatabase (by decide)).2 (by decide)⟩

/-! ## The claims about saving and loading -/

/-- C9, as amended: for every store `s` whose count and whose occupied records survive
printing and reading, that is each label is not empty and has no white space in it and
the stream library reads each printed number back as the number it was, and for every
store `t` whose capacity is at least `s.count`, loading into `t` the text that saving `s`
wrote leaves `t` with `count == s.count` and with occupied slots equal, record for record
and in the same order, to those of `s`. -/
theorem save_load_roundTrip (lib : StreamLib) (s t : SignalDatabase) (hs : s.WF) (ht : t.WF)
    (hcap : s.currentSize ≤ t.maxSize) (hcount : lib.IntSurvives s.currentSize)
    (hrecords : ∀ r ∈ s.occupied, lib.RecordSurvives r) (uninitialized : Int) :
    (t.loadFromFile lib (s.saveToFile lib true).2 uninitialized).currentSize
        = s.currentSize ∧
      (t.loadFromFile lib (s.saveToFile lib true).2 uninitialized).occupied
        = s.occupied := by
  have hlen := SignalDatabase.occupied_length s hs
  have hwell := wellFormed_databaseText lib s.occupied (by rw [hlen]; exact hcount) hrecords
  obtain ⟨h1, h2⟩ := SignalDatabase.loadFromFile_wellFormed lib t _ _ _ ht hwell
    uninitialized
  rw [SignalDatabase.saveToFile_text lib s hs]
  rw [hlen] at h1 h2
  rw [Nat.min_eq_left hcap] at h1 h2
  refine ⟨h1, ?_⟩
  rw [h2, ← hlen, List.take_length]

theorem save_load_roundTrip_witness :
    fiveDatabase.WF ∧ (SignalDatabase.new 8).WF ∧
      fiveDatabase.currentSize ≤ (SignalDatabase.new 8).maxSize ∧
      decimalLib.IntSurvives fiveDatabase.currentSize ∧
      (∀ r ∈ fiveDatabase.occupied, decimalLib.RecordSurvives r) ∧
      ((SignalDatabase.new 8).loadFromFile decimalLib
        (fiveDatabase.saveToFile decimalLib true).2 99).currentSize
          = fiveDatabase.currentSize ∧
      ((SignalDatabase.new 8).loadFromFile decimalLib
        (fiveDatabase.saveToFile decimalLib true).2 99).occupied = fiveDatabase.occupied :=
  ⟨by decide, by decide, by decide, decimalLib_intSurvives _ (by decide), fiveSignals_survive,
    save_load_roundTrip decimalLib fiveDatabase (SignalDatabase.new 8) (by decide) (by decide)
      (by decide) (decimalLib_intSurvives _ (by decide)) fiveSignals_survive 99⟩

/-- C9 as stated fails: whatever the stream library does with numbers and whatever the
variable `count` holds at first, the store that holds one record labelled `My WiFi` is not
reproduced by saving it and loading the text into a new store of capacity one, because
`>>` ends a label at the first white space. -/
theorem save_load_spaced_label :
    spacedDatabase.WF ∧ (SignalDatabase.new 1).WF ∧
      spacedDatabase.currentSize ≤ (SignalDatabase.new 1).maxSize ∧
      ¬ ∃ (lib : StreamLib) (uninitialized : Int),
        ((SignalDatabase.new 1).loadFromFile lib (spacedDatabase.saveToFile lib true).2
          uninitialized).occupied = spacedDatabase.occupied := by
  refine ⟨by decide, by decide, by decide, ?_⟩
  rintro ⟨lib, uninitialized, h⟩
  have hmem : (⟨Double.ofRat 1, Double.ofRat 2, Double.ofRat 3, "My WiFi"⟩ : WirelessSignal)
      ∈ spacedDatabase.occupied := by decide
  rw [← h] at hmem
  have hsave : (spacedDatabase.saveToFile lib true).2
      = some (databaseText lib spacedDatabase.occupied) := by
    rw [SignalDatabase.saveToFile_text lib spacedDatabase (by decide)]
  rw [hsave] at hmem
  have hnone := SignalDatabase.loadFromFile_labels lib (SignalDatabase.new 1) _
    uninitialized (SignalDatabase.new_WF 1) _ hmem ' ' (by decide)
  revert hnone
  decide

/-- C10: for every text that starts with the count `n` and goes on with `n` well-formed
records, and every store of capacity `c`, `loadFromFile` on the opened file leaves
`count == min(n, c)` and the occupied slots equal to the first `min(n, c)` records of the
text, in file order.  Concretely, when the text saved from a store of 5 records is such a
text, loading it into a store of capacity 3 yields `count == 3` and the first 3 records. -/
theorem loadFromFile_truncates (lib : StreamLib) (uninitialized : Int) :
    (∀ (db : SignalDatabase) (text : List Char) (n : Nat) (records : List WirelessSignal),
      db.WF → WellFormedText lib text n records →
      (db.loadFromFile lib (some text) uninitialized).currentSize = min n db.maxSize ∧
        (db.loadFromFile lib (some text) uninitialized).occupied
          = records.take (min n db.maxSize)) ∧
    (∀ s t : SignalDatabase, s.WF → t.WF → s.currentSize = 5 → t.maxSize = 3 →
      WellFormedText lib (databaseText lib s.occupied) 5 s.occupied →
      (t.loadFromFile lib (s.saveToFile lib true).2 uninitialized).currentSize = 3 ∧
        (t.loadFromFile lib (s.saveToFile lib true).2 uninitialized).occupied
          = s.occupied.take 3) := by
  refine ⟨fun db text n records hwf htext =>
    SignalDatabase.loadFromFile_wellFormed lib db text n records hwf htext uninitialized, ?_⟩
  intro s t hs ht h5 h3 htext
  obtain ⟨h1, h2⟩ := SignalDatabase.loadFromFile_wellFormed lib t _ 5 _ ht htext
    uninitialized
  rw [SignalDatabase.saveToFile_text lib s hs]
  rw [h3] at h1 h2
  exact ⟨h1, h2⟩

theorem loadFromFile_truncates_witness :
    fiveDatabase.WF ∧ (SignalDatabase.new 3).WF ∧
      WellFormedText decimalLib (databaseText decimalLib fiveDatabase.occupied) 5
        fiveDatabase.occupied ∧
      ((SignalDatabase.new 3).loadFromFile decimalLib
        (some (databaseText decimalLib fiveDatabase.occupied)) 99).currentSize = 3 ∧
      ((SignalDatabase.new 3).loadFromFile decimalLib
        (fiveDatabase.saveToFile decimalLib true).2 99).occupied = fiveSignals.take 3 :=
  ⟨by decide, by decide, by decide,
    ((loadFromFile_truncates decimalLib 99).1 (SignalDatabase.new 3)
      (databaseText decimalLib fiveDatabase.occupied) 5 fiveDatabase.occupied (by decide)
      (by decide)).1,
    ((loadFromFile_truncates decimalLib 99).2 fiveDatabase (SignalDatabase.new 3) (by decide)
      (by decide) (by decide) (by decide) (by decide)).2⟩

/-! ## Loading and the invariant of the store -/

namespace SignalDatabase

theorem addSignal_currentSize_of_lt (db : SignalDatabase) (r : WirelessSignal)
    (hlt : db.currentSize < db.maxSize) :
    (db.addSignal r).1.currentSize = db.currentSize + 1 := by
  simp only [addSignal, if_pos hlt]

theorem addSignal_of_not_lt (db : SignalDatabase) (r : WirelessSignal)
    (hlt : ¬ db.currentSize < db.maxSize) : (db.addSignal r).1 = db := by
  simp only [addSignal, if_neg hlt]

/-- The loading loop does to two stores that agree on capacity, count and occupied slots
the same thing. -/
theorem loadLoop_agree (lib : StreamLib) :
    ∀ (k : Nat) (db1 db2 : SignalDatabase) (file : IFStream), db1.WF → db2.WF →
      db1.maxSize = db2.maxSize → db1.currentSize = db2.currentSize →
      db1.occupied = db2.occupied →
      (loadLoop lib k (db1, file)).1.currentSize = (loadLoop lib k (db2, file)).1.currentSize ∧
      (loadLoop lib k (db1, file)).1.occupied = (loadLoop lib k (db2, file)).1.occupied := by
  intro k
  induction k with
  | zero => intro db1 db2 file _ _ _ hc ho; exact ⟨hc, ho⟩
  | succ k ih =>
    intro db1 db2 file h1 h2 hm hc ho
    simp only [loadLoop]
    apply ih _ _ _ (addSignal_WF db1 _ h1) (addSignal_WF db2 _ h2)
    · rw [addSignal_maxSize, addSignal_maxSize, hm]
    · by_cases hlt : db1.currentSize < db1.maxSize
      · have hlt2 : db2.currentSize < db2.maxSize := by omega
        rw [addSignal_currentSize_of_lt db1 _ hlt, addSignal_currentSize_of_lt db2 _ hlt2, hc]
      · have hlt2 : ¬ db2.currentSize < db2.maxSize := by omega
        rw [addSignal_of_not_lt db1 _ hlt, addSignal_of_not_lt db2 _ hlt2, hc]
    · by_cases hlt : db1.currentSize < db1.maxSize
      · have hlt2 : db2.currentSize < db2.maxSize := by omega
        rw [addSignal_occupied_of_lt db1 _ h1 hlt, addSignal_occupied_of_lt db2 _ h2 hlt2, ho]
      · have hlt2 : ¬ db2.currentSize < db2.maxSize := by omega
        rw [addSignal_of_not_lt db1 _ hlt, addSignal_of_not_lt db2 _ hlt2, ho]

/-- What `loadFromFile` leaves in a store depends on the capacity of the store, on the
text and on the value that the variable `count` holds at first, not on what the store
held. -/
theorem loadFromFile_agree (lib : StreamLib) (db1 db2 : SignalDatabase) (text : List Char)
    (uninitialized : Int) (h1 : db1.WF) (h2 : db2.WF) (hm : db1.maxSize = db2.maxSize) :
    (db1.loadFromFile lib (some text) uninitialized).currentSize
        = (db2.loadFromFile lib (some text) uninitialized).currentSize ∧
      (db1.loadFromFile lib (some text) uninitialized).occupied
        = (db2.loadFromFile lib (some text) uninitialized).occupied := by
  have w1 : ({ db1 with currentSize := 0 } : SignalDatabase).WF := ⟨h1.1, Nat.zero_le _⟩
  have w2 : ({ db2 with currentSize := 0 } : SignalDatabase).WF := ⟨h2.1, Nat.zero_le _⟩
  have hk : ∀ n : Nat, min n db1.maxSize = min n db2.maxSize := fun n => by rw [hm]
  simp only [loadFromFile]
  rw [hk]
  exact loadLoop_agree lib _ _ _ _ w1 w2 hm rfl (by simp [occupied])

theorem loadLoop_WF (lib : StreamLib) :
    ∀ (k : Nat) (db : SignalDatabase) (file : IFStream), db.WF →
      (loadLoop lib k (db, file)).1.WF ∧ (loadLoop lib k (db, file)).1.maxSize = db.maxSize := by
  intro k
  induction k with
  | zero => intro db file h; exact ⟨h, rfl⟩
  | succ k ih =>
    intro db file h
    simp only [loadLoop]
    obtain ⟨i1, i2⟩ := ih (db.addSignal ((default : WirelessSignal).loadFromFile lib file).1).1
      ((default : WirelessSignal).loadFromFile lib file).2 (addSignal_WF db _ h)
    exact ⟨i1, by rw [i2, addSignal_maxSize]⟩

theorem loadFromFile_WF (lib : StreamLib) (db : SignalDatabase) (file : Option (List Char))
    (uninitialized : Int) (h : db.WF) :
    (db.loadFromFile lib file uninitialized).WF ∧
      (db.loadFromFile lib file uninitialized).maxSize = db.maxSize := by
  cases file with
  | none => exact ⟨h, rfl⟩
  | some text =>
    have w : ({ db with currentSize := 0 } : SignalDatabase).WF := ⟨h.1, Nat.zero_le _⟩
    simp only [loadFromFile]
    exact loadLoop_WF lib _ _ _ w

theorem sortByFrequency_WF (db : SignalDatabase) (h : db.WF) :
    db.sortByFrequency.WF ∧ db.sortByFrequency.maxSize = db.maxSize := by
  obtain ⟨sorted, e, hperm, -⟩ := sort_signals db h
  have hlen : sorted.length = db.currentSize := by
    rw [hperm.length_eq]; exact occupied_length db h
  refine ⟨⟨?_, h.2⟩, rfl⟩
  rw [e]
  have h1 := h.1
  have h2 := h.2
  simp only [List.length_append, List.length_drop, hlen]
  show db.currentSize + (db.signals.length - db.currentSize) = db.maxSize
  omega

theorem applyOp_WF (lib : StreamLib) (db : SignalDatabase) (op : StoreOp) (h : db.WF) :
    (db.applyOp lib op).WF ∧ (db.applyOp lib op).maxSize = db.maxSize := by
  cases op with
  | addSignal r => exact ⟨addSignal_WF db r h, addSignal_maxSize db r⟩
  | sortByFrequency => exact sortByFrequency_WF db h
  | loadFromFile file uninitialized => exact loadFromFile_WF lib db file uninitialized h

theorem applyOps_WF (lib : StreamLib) (ops : List StoreOp) :
    ∀ db : SignalDatabase, db.WF →
      (db.applyOps lib ops).WF ∧ (db.applyOps lib ops).maxSize = db.maxSize := by
  induction ops with
  | nil => intro db h; exact ⟨h, rfl⟩
  | cons op ops ih =>
    intro db h
    obtain ⟨h1, h2⟩ := applyOp_WF lib db op h
    obtain ⟨i1, i2⟩ := ih (db.applyOp lib op) h1
    exact ⟨i1, by rw [← h2]; exact i2⟩

end SignalDatabase

/-! ## Stability of the sort -/

theorem Double.not_gt_of_le {a b : Double} (h : Double.le a b = true) :
    Double.gt a b = false := by
  cases a <;> cases b <;> simp_all [Double.gt, Double.lt, Double.le]

theorem Double.not_gt_self (a : Double) : Double.gt a a = false := by
  cases a <;> simp [Double.gt, Double.lt]

theorem Double.not_gt_of_eq {a b k : Double} (ha : Double.eq a k = true)
    (hb : Double.eq b k = true) : Double.gt a b = false := by
  cases a <;> cases b <;> cases k <;> simp_all [Double.gt, Double.lt, Double.eq]

namespace SignalDatabase

theorem swapIfGreater_length (l : List WirelessSignal) (j : Nat) :
    (swapIfGreater l j).length = l.length := by
  unfold swapIfGreater
  split <;> simp

/-- An exchange keeps the records that satisfy `P` in their order, when no record that
satisfies `P` has a greater frequency than another one that does. -/
theorem swapIfGreater_filter (P : WirelessSignal → Bool)
    (hP : ∀ a b, P a = true → P b = true → Double.gt a.frequency b.frequency = false) :
    ∀ (l : List WirelessSignal) (j : Nat), j + 1 < l.length →
      (swapIfGreater l j).filter P = l.filter P := by
  intro l
  induction l with
  | nil => intro j h; simp at h
  | cons a t ih =>
    intro j h
    cases j with
    | zero =>
      match t, h with
      | b :: t2, _ =>
        rw [swapIfGreater_zero]
        by_cases hgt : Double.gt a.frequency b.frequency = true
        · rw [if_pos hgt]
          cases ha : P a <;> cases hb : P b
          · simp [List.filter_cons, ha, hb]
          · simp [List.filter_cons, ha, hb]
          · simp [List.filter_cons, ha, hb]
          · rw [hP a b ha hb] at hgt; cases hgt
        · rw [if_neg hgt]
    | succ j =>
      rw [swapIfGreater_cons_succ, List.filter_cons, List.filter_cons,
        ih j (by simpa using h)]

theorem foldl_swapIfGreater_filter (P : WirelessSignal → Bool)
    (hP : ∀ a b, P a = true → P b = true → Double.gt a.frequency b.frequency = false)
    (js : List Nat) :
    ∀ l : List WirelessSignal, (∀ j ∈ js, j + 1 < l.length) →
      (js.foldl swapIfGreater l).filter P = l.filter P ∧
        (js.foldl swapIfGreater l).length = l.length := by
  induction js with
  | nil => intro l _; exact ⟨rfl, rfl⟩
  | cons j js ih =>
    intro l h
    have hj : j + 1 < l.length := h j (by simp)
    obtain ⟨i1, i2⟩ := ih (swapIfGreater l j) (fun k hk => by
      rw [swapIfGreater_length]; exact h k (List.mem_cons_of_mem _ hk))
    rw [List.foldl_cons]
    exact ⟨by rw [i1, swapIfGreater_filter P hP l j hj], by rw [i2, swapIfGreater_length]⟩

theorem sortPass_filter (P : WirelessSignal → Bool)
    (hP : ∀ a b, P a = true → P b = true → Double.gt a.frequency b.frequency = false)
    (n : Nat) (l : List WirelessSignal) (i : Nat) (hn : n ≤ l.length) :
    (sortPass n l i).filter P = l.filter P ∧ (sortPass n l i).length = l.length := by
  unfold sortPass
  apply foldl_swapIfGreater_filter P hP
  intro j hj
  have := List.mem_range.mp hj
  omega

theorem foldl_sortPass_filter (P : WirelessSignal → Bool)
    (hP : ∀ a b, P a = true → P b = true → Double.gt a.frequency b.frequency = false)
    (n : Nat) (rounds : List Nat) :
    ∀ l : List WirelessSignal, n ≤ l.length →
      (rounds.foldl (sortPass n) l).filter P = l.filter P ∧
        (rounds.foldl (sortPass n) l).length = l.length := by
  induction rounds with
  | nil => intro l _; exact ⟨rfl, rfl⟩
  | cons i rounds ih =>
    intro l hn
    obtain ⟨h1, h2⟩ := sortPass_filter P hP n l i hn
    obtain ⟨i1, i2⟩ := ih (sortPass n l i) (by rw [h2]; exact hn)
    rw [List.foldl_cons]
    exact ⟨by rw [i1, h1], by rw [i2, h2]⟩

/-- The sort keeps the occupied records that satisfy `P` in their order, when no record
that satisfies `P` has a greater frequency than another one that does. -/
theorem sort_filter (P : WirelessSignal → Bool)
    (hP : ∀ a b, P a = true → P b = true → Double.gt a.frequency b.frequency = false)
    (db : SignalDatabase) (hwf : db.WF) :
    db.sortByFrequency.occupied.filter P = db.occupied.filter P := by
  have hlen : db.currentSize ≤ db.signals.length := by
    have := hwf.1; have := hwf.2; omega
  obtain ⟨h1, h2⟩ := foldl_sortPass_filter P hP db.currentSize
    (List.range (db.currentSize - 1)) db.signals hlen
  have e : db.sortByFrequency.signals
      = (List.range (db.currentSize - 1)).foldl (sortPass db.currentSize) db.signals := rfl
  obtain ⟨sorted, es, hperm, -⟩ := sort_signals db hwf
  have hsl : sorted.length = db.currentSize := by
    rw [hperm.length_eq]; exact occupied_length db hwf
  have hocc : db.sortByFrequency.occupied = sorted := by
    unfold occupied
    rw [es]
    show List.take db.currentSize _ = _
    rw [← hsl, List.take_left]
  rw [← e, es, List.filter_append] at h1
  have hsplit : db.signals.filter P
      = db.occupied.filter P ++ (db.signals.drop db.currentSize).filter P := by
    rw [← List.filter_append, occupied, List.take_append_drop]
  rw [hsplit] at h1
  rw [hocc]
  exact List.append_cancel_right h1

theorem foldl_swapIfGreater_fixed (l : List WirelessSignal) (js : List Nat)
    (h : ∀ j ∈ js,
      Double.gt (l.getD j default).frequency (l.getD (j + 1) default).frequency = false) :
    js.foldl swapIfGreater l = l := by
  induction js with
  | nil => rfl
  | cons j js ih =>
    have hj := h j (by simp)
    have e : swapIfGreater l j = l := by
      unfold swapIfGreater
      rw [hj]
      rfl
    rw [List.foldl_cons, e]
    exact ih (fun k hk => h k (List.mem_cons_of_mem _ hk))

theorem foldl_sortPass_fixed (n : Nat) (l : List WirelessSignal) (rounds : List Nat)
    (h : ∀ j : Nat, j + 1 < n →
      Double.gt (l.getD j default).frequency (l.getD (j + 1) default).frequency = false) :
    rounds.foldl (sortPass n) l = l := by
  induction rounds with
  | nil => rfl
  | cons i rounds ih =>
    have e : sortPass n l i = l := by
      unfold sortPass
      apply foldl_swapIfGreater_fixed
      intro j hj
      have := List.mem_range.mp hj
      exact h j (by omega)
    rw [List.foldl_cons, e]
    exact ih

/-- Sorting a store whose occupied slots are in order changes nothing. -/
theorem sort_of_sorted (db : SignalDatabase) (hwf : db.WF)
    (hsorted : SortedByFrequency db.occupied) : db.sortByFrequency = db := by
  have e := foldl_sortPass_fixed db.currentSize db.signals (List.range (db.currentSize - 1))
    (fun j hj => Double.not_gt_of_le
      (sorted_signals_of_occupied db hsorted hwf j (j + 1) (Nat.lt_succ_self j) hj))
  unfold sortByFrequency
  rw [e]

end SignalDatabase

/-! ## The iterations of the binary search -/

namespace SignalDatabase

/-- Every iteration of the loop that starts inside `[0, n)` has `left <= right`, reads the
slot `mid = left + (right - left) / 2`, and stays inside `[0, n)`. -/
theorem findTrace_entries (signals : List WirelessSignal) (t : Double) (n : Nat) :
    ∀ (fuel : Nat) (left right : Int), 0 ≤ left → right < n →
      ∀ e ∈ findTrace signals t fuel left right,
        e.1 ≤ e.2.1 ∧ e.2.2 = e.1 + (e.2.1 - e.1) / 2 ∧ 0 ≤ e.1 ∧ e.2.1 < n := by
  intro fuel
  induction fuel with
  | zero => intro left right _ _ e he; simp [findTrace] at he
  | succ fuel ih =>
    intro left right hl hr e he
    unfold findTrace at he
    by_cases hlr : left ≤ right
    · rw [if_pos hlr] at he
      simp only [List.mem_cons] at he
      rcases he with rfl | he
      · exact ⟨hlr, rfl, hl, hr⟩
      · by_cases heq : Double.eq
            (signals.getD (left + (right - left) / 2).toNat default).frequency t = true
        · rw [if_pos heq] at he; simp at he
        · rw [if_neg heq] at he
          by_cases hlt : Double.lt
              (signals.getD (left + (right - left) / 2).toNat default).frequency t = true
          · rw [if_pos hlt] at he
            exact ih _ _ (by omega) hr e he
          · rw [if_neg hlt] at he
            exact ih _ _ hl (by omega) e he
    · rw [if_neg hlr] at he; simp at he

/-- The first iteration of the loop, if there is one, starts from the given bounds. -/
theorem findTrace_head (signals : List WirelessSignal) (t : Double) (fuel : Nat)
    (left right : Int) :
    ∀ e ∈ (findTrace signals t fuel left right).head?, e.1 = left ∧ e.2.1 = right := by
  intro e he
  cases fuel with
  | zero => simp [findTrace] at he
  | succ fuel =>
    unfold findTrace at he
    by_cases hlr : left ≤ right
    · rw [if_pos hlr] at he
      simp only [List.head?_cons, Option.mem_def, Option.some.injEq] at he
      subst he
      exact ⟨rfl, rfl⟩
    · rw [if_neg hlr] at he; simp at he

/-- From one iteration to the next either `left` becomes `mid + 1` or `right` becomes
`mid - 1`, and `right - left` decreases. -/
theorem findTrace_chain (signals : List WirelessSignal) (t : Double) :
    ∀ (fuel : Nat) (left right : Int),
      List.Chain' (fun a b : Int × Int × Int =>
        ((b.1 = a.2.2 + 1 ∧ b.2.1 = a.2.1) ∨ (b.1 = a.1 ∧ b.2.1 = a.2.2 - 1)) ∧
          b.2.1 - b.1 < a.2.1 - a.1)
        (findTrace signals t fuel left right) := by
  intro fuel
  induction fuel with
  | zero => intro left right; simp [findTrace]
  | succ fuel ih =>
    intro left right
    unfold findTrace
    by_cases hlr : left ≤ right
    · rw [if_pos hlr]
      simp only
      by_cases heq : Double.eq
          (signals.getD (left + (right - left) / 2).toNat default).frequency t = true
      · rw [if_pos heq]; exact List.chain'_singleton _
      · rw [if_neg heq]
        by_cases hlt : Double.lt
            (signals.getD (left + (right - left) / 2).toNat default).frequency t = true
        · rw [if_pos hlt]
          refine List.Chain'.cons' (ih _ _) ?_
          intro b hb
          obtain ⟨h1, h2⟩ := findTrace_head signals t fuel _ _ b hb
          refine ⟨Or.inl ⟨h1, h2⟩, ?_⟩
          simp only [h1, h2]
          omega
        · rw [if_neg hlt]
          refine List.Chain'.cons' (ih _ _) ?_
          intro b hb
          obtain ⟨h1, h2⟩ := findTrace_head signals t fuel _ _ b hb
          refine ⟨Or.inr ⟨h1, h2⟩, ?_⟩
          simp only [h1, h2]
          omega
    · rw [if_neg hlr]; exact List.chain'_nil

/-- The loop runs at most once for each index between `left` and `right`. -/
theorem findTrace_length (signals : List WirelessSignal) (t : Double) :
    ∀ (fuel : Nat) (left right : Int),
      (findTrace signals t fuel left right).length ≤ (right + 1 - left).toNat := by
  intro fuel
  induction fuel with
  | zero => intro left right; simp [findTrace]
  | succ fuel ih =>
    intro left right
    unfold findTrace
    by_cases hlr : left ≤ right
    · rw [if_pos hlr]
      simp only [List.length_cons]
      by_cases heq : Double.eq
          (signals.getD (left + (right - left) / 2).toNat default).frequency t = true
      · rw [if_pos heq]; simp only [List.length_nil]; omega
      · rw [if_neg heq]
        by_cases hlt : Double.lt
            (signals.getD (left + (right - left) / 2).toNat default).frequency t = true
        · rw [if_pos hlt]
          have := ih (left + (right - left) / 2 + 1) right
          omega
        · rw [if_neg hlt]
          have := ih left (left + (right - left) / 2 - 1)
          omega
    · rw [if_neg hlr]; simp

/-- An index that the loop returns is the slot read by its last iteration. -/
theorem findTrace_last (signals : List WirelessSignal) (t : Double) :
    ∀ (fuel : Nat) (left right res : Int), 0 ≤ left →
      findLoop signals t fuel left right = some res → res ≠ -1 →
      ∃ (before : List (Int × Int × Int)) (e : Int × Int × Int),
        findTrace signals t fuel left right = before ++ [e] ∧ e.2.2 = res := by
  intro fuel
  induction fuel with
  | zero => intro left right res _ h; simp [findLoop] at h
  | succ fuel ih =>
    intro left right res hl h hne
    unfold findLoop at h
    unfold findTrace
    by_cases hlr : left ≤ right
    · rw [if_pos hlr] at h ⊢
      simp only at h ⊢
      by_cases heq : Double.eq
          (signals.getD (left + (right - left) / 2).toNat default).frequency t = true
      · rw [if_pos heq] at h ⊢
        simp only [Option.some.injEq] at h
        exact ⟨[], _, rfl, h⟩
      · rw [if_neg heq] at h ⊢
        by_cases hlt : Double.lt
            (signals.getD (left + (right - left) / 2).toNat default).frequency t = true
        · rw [if_pos hlt] at h ⊢
          obtain ⟨before, e, e1, e2⟩ := ih _ _ res (by omega) h hne
          exact ⟨_ :: before, e, by rw [e1]; rfl, e2⟩
        · rw [if_neg hlt] at h ⊢
          obtain ⟨before, e, e1, e2⟩ := ih _ _ res hl h hne
          exact ⟨_ :: before, e, by rw [e1]; rfl, e2⟩
    · rw [if_neg hlr] at h
      simp only [Option.some.injEq] at h
      exact absurd h.symm hne

end SignalDatabase

/-! ## The claims about loading -/

/-- C11, evaluated on an opened file that is empty or holds white space only: `file >> count`
stores nothing there, so the loop runs as often as the uninitialised `count` says.  When
that variable holds 0 in one call and 2 in another, two stores of capacity 10 end with the
counts 0 and 2, and the second with two default-constructed records. -/
theorem loadFromFile_empty_file :
    decimalLib.readInt [] = (none, none) ∧
      (SignalDatabase.new 10).WF ∧ demoDatabase.WF ∧
      (SignalDatabase.new 10).maxSize = demoDatabase.maxSize ∧
      ((SignalDatabase.new 10).loadFromFile decimalLib (some []) 0).currentSize = 0 ∧
      (demoDatabase.loadFromFile decimalLib (some []) 2).currentSize = 2 ∧
      ((SignalDatabase.new 10).loadFromFile decimalLib (some []) 0).occupied = [] ∧
      (demoDatabase.loadFromFile decimalLib (some []) 2).occupied = [default, default] ∧
      ((SignalDatabase.new 10).loadFromFile decimalLib (some [' ', '\n']) 0).currentSize = 0 ∧
      (demoDatabase.loadFromFile decimalLib (some [' ', '\n']) 2).currentSize = 2 := by
  decide

/-- C12: for every store, when the source file cannot be opened, `loadFromFile` leaves the
store in its prior state: the count and every occupied slot are unchanged, and so is
every other member. -/
theorem loadFromFile_not_opened (lib : StreamLib) (db : SignalDatabase)
    (uninitialized : Int) :
    (db.loadFromFile lib none uninitialized).currentSize = db.currentSize ∧
      (db.loadFromFile lib none uninitialized).occupied = db.occupied ∧
      db.loadFromFile lib none uninitialized = db :=
  ⟨rfl, rfl, rfl⟩

/-- C13: store invariant: for every store constructed with a capacity `c >= 0`, after any
finite sequence of `addSignal`, `sortByFrequency` and `loadFromFile` calls, whether the
file can be opened or not, whatever it holds and whatever the local variable `count` of
`loadFromFile` holds at first, `0 <= count <= capacity` holds; the capacity is still `c`
and the array still has `c` slots. -/
theorem store_invariant (lib : StreamLib) (c : Nat) (ops : List StoreOp) :
    0 ≤ ((SignalDatabase.new c).applyOps lib ops).currentSize ∧
      ((SignalDatabase.new c).applyOps lib ops).currentSize
        ≤ ((SignalDatabase.new c).applyOps lib ops).maxSize ∧
      ((SignalDatabase.new c).applyOps lib ops).maxSize = c ∧
      ((SignalDatabase.new c).applyOps lib ops).signals.length = c := by
  obtain ⟨⟨h1, h2⟩, h3⟩ := SignalDatabase.applyOps_WF lib ops (SignalDatabase.new c)
    (SignalDatabase.new_WF c)
  have h4 : (SignalDatabase.new c).maxSize = c := rfl
  exact ⟨Nat.zero_le _, h2, by rw [h3, h4], by rw [h1, h3, h4]⟩

/-! ## The claim about the signal strength -/

/-- C14: for every record, `calculateSignalStrength` returns `power` unchanged when
`distance == 0`, whatever the value of `power`, and returns
`power / (distance * distance)` when `distance != 0`. -/
theorem calculateSignalStrength_cases (arith : FloatArith) (r : WirelessSignal) :
    (Double.eq r.distance (Double.ofRat 0) = true →
      r.calculateSignalStrength arith = r.power) ∧
    (Double.eq r.distance (Double.ofRat 0) = false →
      r.calculateSignalStrength arith = arith.div r.power (arith.mul r.distance r.distance)) := by
  constructor
  · intro h
    simp only [WirelessSignal.calculateSignalStrength, h, if_true]
  · intro h
    simp only [WirelessSignal.calculateSignalStrength, h]
    rfl

theorem calculateSignalStrength_cases_witness :
    Double.eq (Double.ofRat 0) (Double.ofRat 0) = true ∧
      ({ power := Double.ofRat (-3), frequency := Double.ofRat 1, distance := Double.ofRat 0,
         deviceType := "A" } : WirelessSignal).calculateSignalStrength exactArith
        = Double.ofRat (-3) ∧
      Double.eq (Double.ofRat 10) (Double.ofRat 0) = false ∧
      ({ power := Double.ofRat 50, frequency := Double.ofRat 1, distance := Double.ofRat 10,
         deviceType := "B" } : WirelessSignal).calculateSignalStrength exactArith
        = exactArith.div (Double.ofRat 50)
            (exactArith.mul (Double.ofRat 10) (Double.ofRat 10)) ∧
      exactArith.div (Double.ofRat 50) (exactArith.mul (Double.ofRat 10) (Double.ofRat 10))
        = Double.dec 5 1 :=
  ⟨by decide,
    (calculateSignalStrength_cases exactArith
      { power := Double.ofRat (-3), frequency := Double.ofRat 1, distance := Double.ofRat 0,
        deviceType := "A" }).1 (by decide),
    by decide,
    (calculateSignalStrength_cases exactArith
      { power := Double.ofRat 50, frequency := Double.ofRat 1, distance := Double.ofRat 10,
        deviceType := "B" }).2 (by decide),
    by decide⟩

/-! ## The claim about saving -/

/-- C15: for every store whose destination can be opened, `saveToFile` writes first the
count and the end of the line and then exactly `count` record lines, one for each occupied
slot in storage order, index 0 first, each with its fields in the fixed order
`deviceType`, `power`, `frequency`, `distance`, a space between them and the end of the
line after them; and it leaves the store as it was. -/
theorem saveToFile_writes (lib : StreamLib) (db : SignalDatabase) (hwf : db.WF) :
    (db.saveToFile lib true).1 = db ∧
      (db.saveToFile lib true).2
        = some (lib.showInt db.currentSize ++ ['\n']
            ++ (db.occupied.map (recordLine lib)).flatten) ∧
      (db.occupied.map (recordLine lib)).length = db.currentSize ∧
      ∀ r : WirelessSignal, recordLine lib r
        = r.deviceType.data ++ [' '] ++ lib.showDouble r.power ++ [' ']
            ++ lib.showDouble r.frequency ++ [' '] ++ lib.showDouble r.distance ++ ['\n'] := by
  have hlen := SignalDatabase.occupied_length db hwf
  refine ⟨rfl, ?_, by rw [List.length_map, hlen], ?_⟩
  · rw [SignalDatabase.saveToFile_text lib db hwf]
    simp only [databaseText, hlen]
    simp
  · intro r
    simp [recordLine]

theorem saveToFile_writes_witness :
    fiveDatabase.WF ∧ (fiveDatabase.saveToFile decimalLib true).1 = fiveDatabase ∧
      (fiveDatabase.saveToFile decimalLib true).2
        = some (decimalLib.showInt fiveDatabase.currentSize ++ ['\n']
            ++ (fiveDatabase.occupied.map (recordLine decimalLib)).flatten) ∧
      (fiveDatabase.saveToFile decimalLib true).2
        = some ("5\nWiFi 1 2400 10\nBluetooth 2 2450 3\nRadio 50 101 1000\n"
            ++ "GSM 4 900 250\nLoRa 7 433 40\n").data :=
  ⟨by decide, (saveToFile_writes decimalLib fiveDatabase (by decide)).1,
    (saveToFile_writes decimalLib fiveDatabase (by decide)).2.1, by decide⟩

/-! ## The claims about searching without the precondition -/

/-- C16: for some store sorted ascending by frequency that contains duplicate frequencies
and some target, `findSignalByFrequency(target)` returns a matching index that is not the
lowest-indexed match: in the store with the frequencies `[5, 5, 5]` the target `5` returns
index 1, and slot 0 matches as well. -/
theorem findSignalByFrequency_not_lowest :
    (fivesDatabase.WF ∧ SortedByFrequency fivesDatabase.occupied ∧
      fivesDatabase.occupied.map (fun r => r.frequency)
        = [Double.ofRat 5, Double.ofRat 5, Double.ofRat 5] ∧
      fivesDatabase.findSignalByFrequency (Double.ofRat 5) = some 1 ∧
      Double.eq (fivesDatabase.occupied.getD 0 default).frequency (Double.ofRat 5) = true) ∧
    ∃ (db : SignalDatabase) (t : Double) (r k : Nat), db.WF ∧ SortedByFrequency db.occupied ∧
      db.findSignalByFrequency t = some (r : Int) ∧ k < r ∧ r < db.currentSize ∧
      Double.eq (db.occupied.getD k default).frequency t = true ∧
      Double.eq (db.occupied.getD r default).frequency t = true :=
  ⟨by decide, fivesDatabase, Double.ofRat 5, 1, 0, by decide⟩

/-- C17: the sorted precondition of `findSignalByFrequency` is necessary and not enforced:
for some store whose occupied slots are not sorted by frequency and some target that is
the frequency of an occupied slot, the search returns not-found (`-1`): in the store with
the frequencies `[3, 1, 2]` the target `3`, which is in slot 0, is not found. -/
theorem findSignalByFrequency_unsorted_misses :
    (unsortedDatabase.WF ∧ ¬ SortedByFrequency unsortedDatabase.occupied ∧
      unsortedDatabase.occupied.map (fun r => r.frequency)
        = [Double.ofRat 3, Double.ofRat 1, Double.ofRat 2] ∧
      Double.eq (unsortedDatabase.occupied.getD 0 default).frequency (Double.ofRat 3) = true ∧
      unsortedDatabase.findSignalByFrequency (Double.ofRat 3) = some (-1)) ∧
    ∃ (db : SignalDatabase) (t : Double) (k : Nat), db.WF ∧ ¬ SortedByFrequency db.occupied ∧
      k < db.currentSize ∧ Double.eq (db.occupied.getD k default).frequency t = true ∧
      db.findSignalByFrequency t = some (-1) :=
  ⟨by decide, unsortedDatabase, Double.ofRat 3, 0, by decide⟩

/-- C18: soundness without the precondition: for every store, sorted or not, and every
target, `findSignalByFrequency(target)` returns, and the value it returns is either `-1`
or an index `i` with `0 <= i < count` and `signals[i].frequency == target`; the store is
left unchanged. -/
theorem findSignalByFrequency_sound (db : SignalDatabase) (t : Double) :
    (db.findSignalByFrequencyCall t).1 = db ∧
      ∃ r : Int, (db.findSignalByFrequencyCall t).2 = some r ∧
        db.findSignalByFrequency t = some r ∧
        (r = -1 ∨ (0 ≤ r ∧ r < db.currentSize ∧
          Double.eq (db.signals.getD r.toNat default).frequency t = true)) := by
  obtain ⟨r, e, hr⟩ := SignalDatabase.findLoop_sound db.signals t (db.currentSize + 1) 0
    ((db.currentSize : Int) - 1) (le_refl _) (by omega)
  refine ⟨rfl, r, e, e, ?_⟩
  rcases hr with h | ⟨h1, h2, h3⟩
  · exact Or.inl h
  · exact Or.inr ⟨h1, by omega, h3⟩

/-! ## The claim about the stability of the sort -/

/-- C19: `sortByFrequency` is a stable sort: for every store and every frequency, the
occupied records that have this frequency appear after sorting in the same order as
before, be the frequencies compared with `==` or, which also covers NaN, taken as equal
values.  Consequently sorting a store that is already non-decreasing by frequency leaves
every slot unchanged. -/
theorem sortByFrequency_stable (db : SignalDatabase) (hwf : db.WF) :
    (∀ f : Double,
      db.sortByFrequency.occupied.filter (fun r => Double.eq r.frequency f)
        = db.occupied.filter (fun r => Double.eq r.frequency f)) ∧
    (∀ f : Double,
      db.sortByFrequency.occupied.filter (fun r => decide (r.frequency = f))
        = db.occupied.filter (fun r => decide (r.frequency = f))) ∧
    (SortedByFrequency db.occupied → db.sortByFrequency = db) := by
  refine ⟨fun f => ?_, fun f => ?_, fun h => SignalDatabase.sort_of_sorted db hwf h⟩
  · exact SignalDatabase.sort_filter _ (fun a b ha hb => Double.not_gt_of_eq ha hb) db hwf
  · refine SignalDatabase.sort_filter _ (fun a b ha hb => ?_) db hwf
    have ea : a.frequency = f := by simpa using ha
    have eb : b.frequency = f := by simpa using hb
    rw [ea, eb]
    exact Double.not_gt_self f

theorem sortByFrequency_stable_witness :
    duplicatesDatabase.WF ∧
      duplicatesDatabase.occupied.map (fun r => r.deviceType) = ["A", "B", "C", "D"] ∧
      duplicatesDatabase.sortByFrequency.occupied.map (fun r => r.deviceType)
        = ["D", "B", "A", "C"] ∧
      duplicatesDatabase.sortByFrequency.occupied.filter
          (fun r => Double.eq r.frequency (Double.ofRat 5))
        = duplicatesDatabase.occupied.filter
          (fun r => Double.eq r.frequency (Double.ofRat 5)) ∧
      SortedByFrequency fivesDatabase.occupied ∧
      fivesDatabase.sortByFrequency = fivesDatabase :=
  ⟨by decide, by decide, by decide,
    (sortByFrequency_stable duplicatesDatabase (by decide)).1 (Double.ofRat 5),
    by decide,
    (sortByFrequency_stable fivesDatabase (by decide)).2.2 (by decide)⟩

/-! ## The claim about the termination of the search -/

/-- C20: termination and in-bounds access of the binary search: for every store and every
target the loop of `findSignalByFrequency` terminates, after at most `count` iterations;
every iteration has `left <= mid <= right` and reads a slot in `[0, count)`, and each of
the two ways to go on, `left = mid + 1` and `right = mid - 1`, makes `right - left`
smaller, so that it strictly decreases from each iteration to the next; an index that is
returned is the slot read last; and for `count == 0` no slot is read and `-1` is
returned. -/
theorem findSignalByFrequency_terminates (db : SignalDatabase) (t : Double) :
    (∃ r : Int, db.findSignalByFrequency t = some r) ∧
    (db.findSignalByFrequencyTrace t).length ≤ db.currentSize ∧
    (∀ e ∈ db.findSignalByFrequencyTrace t,
      e.1 ≤ e.2.2 ∧ e.2.2 ≤ e.2.1 ∧ 0 ≤ e.2.2 ∧ e.2.2 < db.currentSize ∧
      e.2.1 - (e.2.2 + 1) < e.2.1 - e.1 ∧ (e.2.2 - 1) - e.1 < e.2.1 - e.1) ∧
    List.Chain' (fun a b : Int × Int × Int =>
        ((b.1 = a.2.2 + 1 ∧ b.2.1 = a.2.1) ∨ (b.1 = a.1 ∧ b.2.1 = a.2.2 - 1)) ∧
          b.2.1 - b.1 < a.2.1 - a.1)
      (db.findSignalByFrequencyTrace t) ∧
    (∀ r : Int, db.findSignalByFrequency t = some r → r ≠ -1 →
      ∃ (before : List (Int × Int × Int)) (e : Int × Int × Int),
        db.findSignalByFrequencyTrace t = before ++ [e] ∧ e.2.2 = r) ∧
    (db.currentSize = 0 →
      db.findSignalByFrequencyTrace t = [] ∧ db.findSignalByFrequency t = some (-1)) := by
  refine ⟨?_, ?_, ?_, SignalDatabase.findTrace_chain _ _ _ _ _, ?_, ?_⟩
  · obtain ⟨r, e, -⟩ := SignalDatabase.findLoop_sound db.signals t (db.currentSize + 1) 0
      ((db.currentSize : Int) - 1) (le_refl _) (by omega)
    exact ⟨r, e⟩
  · have := SignalDatabase.findTrace_length db.signals t (db.currentSize + 1) 0
      ((db.currentSize : Int) - 1)
    unfold SignalDatabase.findSignalByFrequencyTrace
    omega
  · intro e he
    obtain ⟨h1, h2, h3, h4⟩ := SignalDatabase.findTrace_entries db.signals t db.currentSize
      (db.currentSize + 1) 0 ((db.currentSize : Int) - 1) (le_refl _) (by omega) e he
    refine ⟨?_, ?_, ?_, ?_, ?_, ?_⟩ <;> omega
  · intro r hr hne
    exact SignalDatabase.findTrace_last db.signals t _ _ _ r (le_refl _) hr hne
  · intro h0
    simp [SignalDatabase.findSignalByFrequencyTrace, SignalDatabase.findSignalByFrequency,
      SignalDatabase.findTrace, SignalDatabase.findLoop, h0]

theorem findSignalByFrequency_terminates_witness :
    (SignalDatabase.new 4).currentSize = 0 ∧
      (SignalDatabase.new 4).findSignalByFrequencyTrace (Double.ofRat 5) = [] ∧
      (SignalDatabase.new 4).findSignalByFrequency (Double.ofRat 5) = some (-1) ∧
      unsortedDatabase.findSignalByFrequencyTrace (Double.ofRat 3) = [(0, 2, 1), (2, 2, 2)] ∧
      (unsortedDatabase.findSignalByFrequencyTrace (Double.ofRat 3)).length
        ≤ unsortedDatabase.currentSize :=
  ⟨by decide,
    ((findSignalByFrequency_terminates (SignalDatabase.new 4) (Double.ofRat 5)).2.2.2.2.2
      (by decide)).1,
    ((findSignalByFrequency_terminates (SignalDatabase.new 4) (Double.ofRat 5)).2.2.2.2.2
      (by decide)).2,
    by decide,
    (findSignalByFrequency_terminates unsortedDatabase (Double.ofRat 3)).2.1⟩
